import Mathlib

/-!
Verification of the `crdt_fileset` repository (Rust): a shallow embedding of
`src/lib.rs`, `src/lookup.rs` and `src/serialization.rs` in Lean 4, together
with theorems settling the claims about the specification.

Modelling conventions:
* Rust `u32` values are modelled as `Nat`; where serialization is concerned the
  validity predicate carries the `< 2^32` bound that the `u32` type guarantees.
* A Rust `String` / `OsString` is modelled as the list of its UTF-8 bytes
  (`Str := List Nat`); Rust strings are valid UTF-8, so
  `String::from_utf8_lossy` applied to the bytes of a `String` is the identity
  and is modelled as such by the decoder.
* `HashMap` is modelled as an association list; `insert` replaces the first
  binding of the key or appends, `remove` erases the first binding, iteration
  order is the list order (the Rust iteration order is unspecified; the
  snapshot format is explicitly non-canonical).
* The pluggable `FileUpdater` performs byte-level disk I/O only; its calls
  always return `Ok` in the model, and `save()` (snapshot persistence) has no
  effect on the in-memory state, exactly as in the source.
* The collision-rename retry loop of `IDLookup::add_file_component` is not
  structurally recursive; it is modelled with an explicit fuel parameter, and
  `none` (fuel exhaustion) never occurs for the executions appearing in the
  theorems.
-/

/-- A file identifier `(site_id, id)`, `pub type FileID = (u32, u32)`. -/
abbrev FileID : Type := Nat × Nat

/-- A Rust string, modelled as its list of UTF-8 bytes. -/
abbrev Str : Type := List Nat

/-- `HashMap::get` on the association-list model (first binding wins). -/
def aFind {κ α : Type} [DecidableEq κ] : List (κ × α) → κ → Option α
  | [], _ => none
  | (k, v) :: rest, key => if k = key then some v else aFind rest key

/-- `HashMap::insert` on the association-list model: replace the first
binding of the key, or append a fresh binding at the end. -/
def aInsert {κ α : Type} [DecidableEq κ] : List (κ × α) → κ → α → List (κ × α)
  | [], key, v => [(key, v)]
  | (k, w) :: rest, key, v =>
      if k = key then (k, v) :: rest else (k, w) :: aInsert rest key v

/-- `HashMap::remove` on the association-list model: erase the first binding. -/
def aErase {κ α : Type} [DecidableEq κ] : List (κ × α) → κ → List (κ × α)
  | [], _ => []
  | (k, w) :: rest, key => if k = key then rest else (k, w) :: aErase rest key

/-- One node of the lookup trie (`struct LookupNode` in `src/lookup.rs`):
an optional `FileID` and a map from path components to child nodes. -/
inductive LookupNode : Type where
  | mk (id : Option FileID) (children : List (Str × LookupNode)) : LookupNode

/-- The stored `FileID` of a node. -/
def LookupNode.nid : LookupNode → Option FileID
  | .mk i _ => i

/-- The children map of a node. -/
def LookupNode.childList : LookupNode → List (Str × LookupNode)
  | .mk _ c => c

/-- `LookupNode::new()`: no id, no children. -/
def LookupNode.newNode : LookupNode := .mk none []

/-- `IDLookup::id_lookup` (hence `get_id_for`): exact-match descent along the
path; `none` if an intermediate node is missing or the leaf has no id. -/
def idLookup : List Str → LookupNode → Option FileID
  | [], n => n.nid
  | c :: rest, n =>
      match aFind n.childList c with
      | some child => idLookup rest child
      | none => none

/-- `IDLookup::remove_file_component`: descend, clear the leaf's id, and on
unwinding remove the child entry whenever the recursive call said so; a node
reports `should_remove` to its parent exactly when its children map is empty
after the removal below it (its own id is not consulted — this is the source's
behaviour). Returns `((should_remove, removed_id), updated_node)`. -/
def removeFileComponent : List Str → LookupNode → (Bool × Option FileID) × LookupNode
  | [], .mk i cs =>
      match i with
      | none => ((false, none), .mk none cs)
      | some fid => ((cs.isEmpty, some fid), .mk none cs)
  | c :: rest, .mk i cs =>
      match aFind cs c with
      | none => ((false, none), .mk i cs)
      | some child =>
          let r := removeFileComponent rest child
          let cs1 := if r.1.1 then aErase cs c else aInsert cs c r.2
          ((cs1.isEmpty, r.1.2), .mk i cs1)

/-- `IDLookup::remove_file`: run `remove_file_component` at the head node and
return the removed id together with the updated trie. -/
def removeFile (path : List Str) (t : LookupNode) : Option FileID × LookupNode :=
  ((removeFileComponent path t).1.2, (removeFileComponent path t).2)

/-- ASCII decimal digits of a natural number (bytes of `format!("{}", n)`),
computed with fuel `n+1`, which always suffices. -/
def decDigitsCore : Nat → Nat → List Nat → List Nat
  | 0, _, acc => acc
  | fuel + 1, n, acc =>
      if n < 10 then (48 + n) :: acc
      else decDigitsCore fuel (n / 10) ((48 + n % 10) :: acc)

/-- Bytes of the decimal rendering of `n`. -/
def decDigits (n : Nat) : List Nat := decDigitsCore (n + 1) n []

/-- Bytes of the collision suffix `format!("(site {})", site_id)` appended by
`add_file_component`: `"(site "` is `[40,115,105,116,101,32]` and `")"` is
`[41]`. -/
def siteSuffix (site : Nat) : Str :=
  [40, 115, 105, 116, 101, 32] ++ decDigits site ++ [41]

/-- The empty-path case of `IDLookup::add_file_component`: install the id if
the node has none and report success, else leave the node alone and ask the
caller to retry (`(try_again, result) = (true, None)`). -/
def addLeaf (fid : FileID) : LookupNode → (Bool × Option Str) × LookupNode
  | .mk none cs => ((false, none), .mk (some fid) cs)
  | .mk (some j) cs => ((true, none), .mk (some j) cs)

/-- The `while try_again` loop of `IDLookup::add_file_component`. One
iteration appends `"(site {site_id})"` to the filename and calls
`add_file_component` with the *singleton* path `[filename]` on the child
entry at that renamed key. That recursive call is inlined here (its path is
always a singleton): it descends once more into the grandchild entry at the
same renamed key — so the renamed component is consumed twice, nesting the
leaf at `[... , renamed, renamed]` — attempts the leaf install there, and on
a further collision runs its own retry loop one level down. The `fuel`
argument bounds the retry nesting depth; `none` models divergence (never
reached in the executions below). Returns
`(final_filename, (final_result, node))`. -/
def addLoop : Nat → Str → FileID → Nat → LookupNode →
    Option (Str × Option Str × LookupNode)
  | 0, _, _, _, _ => none
  | fuel + 1, filename, fid, site, .mk i cs =>
      let filename1 := filename ++ siteSuffix site
      let child := (aFind cs filename1).getD LookupNode.newNode
      let grandchild := (aFind child.childList filename1).getD LookupNode.newNode
      let r := addLeaf fid grandchild
      let child1 := LookupNode.mk child.nid (aInsert child.childList filename1 r.2)
      let innerOpt : Option ((Bool × Option Str) × LookupNode) :=
        if r.1.1 then
          match addLoop fuel filename1 fid site child1 with
          | none => none
          | some l =>
              match l.2.1 with
              | some s => some ((false, some s), l.2.2)
              | none => some ((false, some l.1), l.2.2)
        else some ((false, some filename1), child1)
      match innerOpt with
      | none => none
      | some inner =>
          let cs1 := aInsert cs filename1 inner.2
          if inner.1.1 then addLoop fuel filename1 fid site (.mk i cs1)
          else some (filename1, inner.1.2, .mk i cs1)

/-- `IDLookup::add_file_component`. For a non-empty path, descend into the
child at the first component (`entry(..).or_insert_with(new)`); if the
recursive call asks to retry (the leaf already carries an id), run the
`while try_again` loop (`addLoop`). For the empty path, attempt the leaf
install (`addLeaf`). -/
def addFileComponent (fuel : Nat) : List Str → FileID → Nat → LookupNode →
    Option ((Bool × Option Str) × LookupNode)
  | [], fid, _, n => some (addLeaf fid n)
  | c :: rest, fid, site, .mk i cs =>
      let child := (aFind cs c).getD LookupNode.newNode
      match addFileComponent fuel rest fid site child with
      | none => none
      | some r =>
          let cs1 := aInsert cs c r.2
          if r.1.1 then
            match addLoop fuel c fid site (.mk i cs1) with
            | none => none
            | some l =>
                match l.2.1 with
                | some s => some ((false, some s), l.2.2)
                | none => some ((false, some l.1), l.2.2)
          else
            match r.1.2 with
            | some s => some ((false, some s), .mk i cs1)
            | none => some ((false, some c), .mk i cs1)

/-- `IDLookup::add_file`: run `add_file_component` on the head node; the
printed name is `result.1.unwrap()` (the `none` case of the unwrap, reached
only on an empty path, is modelled as `none`). -/
def addFile (fuel : Nat) (path : List Str) (fid : FileID) (site : Nat)
    (t : LookupNode) : Option (Str × LookupNode) := do
  let r ← addFileComponent fuel path fid site t
  match r.1.2 with
  | some printed => some (printed, r.2)
  | none => none

mutual

/-- All `(path, FileID)` leaves of a trie node, depth first. -/
def trieLeaves : LookupNode → List (List Str × FileID)
  | .mk i cs =>
      (match i with
       | some fid => [([], fid)]
       | none => []) ++ childLeaves cs

/-- Leaves contributed by a children map. -/
def childLeaves : List (Str × LookupNode) → List (List Str × FileID)
  | [] => []
  | (name, child) :: rest =>
      (trieLeaves child).map (fun pf => (name :: pf.1, pf.2)) ++ childLeaves rest

end

mutual

/-- Well-formedness of a trie node: the children keys are pairwise distinct
(the `HashMap` invariant) at every level. -/
def wfNode : LookupNode → Bool
  | .mk _ cs => (cs.map Prod.fst).Nodup && wfChildren cs

/-- Well-formedness of a children map. -/
def wfChildren : List (Str × LookupNode) → Bool
  | [] => true
  | (_, child) :: rest => wfNode child && wfChildren rest

end

/-- `struct FileMetadata`: `(filename_timestamp, components)`, the printed
terminal component, and the attribute map `key ↦ (timestamp, value)`. -/
structure FileMetadata : Type where
  filename : Nat × List Str
  printed_filename : Str
  attributes : List (Str × (Nat × Str))
  deriving DecidableEq

/-- `FileMetadata::get_local_filename`: the parent components of `filename`
followed by `printed_filename`. The source slices `0 .. len-1`, which requires
a non-empty component list (it panics otherwise); `dropLast` agrees with it on
every non-empty list. -/
def getLocalFilename (md : FileMetadata) : List Str :=
  md.filename.2.dropLast ++ [md.printed_filename]

/-- `struct State`: a state stamp `(time_stamp, site_id)`. -/
structure State : Type where
  time_stamp : Nat
  site_id : Nat
  deriving DecidableEq

/-- `enum FileSetError`. -/
inductive FileSetError : Type where
  | IOError : FileSetError
  | IDNotFound (site_id : Nat) (id : Nat) : FileSetError
  deriving DecidableEq

/-- `enum MetadataTransaction`. -/
inductive MetadataTransaction : Type where
  | filenameTx (components : List Str) : MetadataTransaction
  | customTx (key : Str) (value : Str) : MetadataTransaction
  deriving DecidableEq

/-- `struct CreateOperation`. -/
structure CreateOperation : Type where
  state : State
  filename : List Str
  id : FileID
  deriving DecidableEq

/-- `struct RemoveOperation`. -/
structure RemoveOperation : Type where
  id : FileID
  deriving DecidableEq

/-- `struct UpdateMetadata`. -/
structure UpdateMetadata : Type where
  state : State
  id : FileID
  data : MetadataTransaction
  deriving DecidableEq

/-- `enum FileSetOperation`. The `Update` variant's opaque updater transaction
and timestamp lookup are never inspected by the file-set core, so only the
`FileID` is carried in the model. -/
inductive FileSetOperation : Type where
  | create (o : CreateOperation) : FileSetOperation
  | remove (o : RemoveOperation) : FileSetOperation
  | update (id : FileID) : FileSetOperation
  | updateMetadata (o : UpdateMetadata) : FileSetOperation
  deriving DecidableEq

/-- `struct FileSet`: the in-memory replica state. The `updater` and
`storage_path` fields perform disk I/O only and are omitted from the model. -/
structure FileSet : Type where
  files : List (FileID × FileMetadata)
  id_lookup : LookupNode
  last_timestamp : Nat
  last_id : Nat
  site_id : Nat

/-- `FileSet::integrate_create`: add to the trie with author `o.id.0` (the
originator's site), insert fresh metadata (empty attributes, filename stamped
with the operation's timestamp), and create the file on disk (modelled `Ok`). -/
def integrateCreate (fuel : Nat) (o : CreateOperation) (s : FileSet) :
    Option (Except FileSetError Unit × FileSet) := do
  let r ← addFile fuel o.filename o.id o.id.1 s.id_lookup
  let md : FileMetadata :=
    { filename := (o.state.time_stamp, o.filename)
      printed_filename := r.1
      attributes := [] }
  some (Except.ok (), { s with files := aInsert s.files o.id md, id_lookup := r.2 })

/-- `FileSet::integrate_remove`: remove the metadata (error `IDNotFound` if
the id is unknown), remove its on-disk path from the trie, delete the file via
the updater (modelled `Ok`). -/
def integrateRemove (o : RemoveOperation) (s : FileSet) :
    Except FileSetError Unit × FileSet :=
  match aFind s.files o.id with
  | none => (Except.error (.IDNotFound o.id.1 o.id.2), s)
  | some md =>
      let files1 := aErase s.files o.id
      let r := removeFile (getLocalFilename md) s.id_lookup
      (Except.ok (), { s with files := files1, id_lookup := r.2 })

/-- `FileSet::integrate_update`: look the metadata up (error `IDNotFound` if
unknown) and delegate the opaque transaction to `updater.update_file`
(modelled `Ok`); the in-memory state is untouched. -/
def integrateUpdate (id : FileID) (s : FileSet) :
    Except FileSetError Unit × FileSet :=
  match aFind s.files id with
  | none => (Except.error (.IDNotFound id.1 id.2), s)
  | some _ => (Except.ok (), s)

/-- `FileSet::integrate_update_metadata`. `Filename` variant: drop (return
`Ok`, no change) when the stored filename stamp is strictly newer, or equal in
timestamp with the *local* `self.site_id` greater than the operation's site;
otherwise remove the old on-disk path from the trie, re-add the new components
with author `o.state.site_id`, and update the stored filename and printed
name. `Custom` variant: same comparison against the stored attribute stamp
when the key is occupied; a vacant key is inserted unconditionally. -/
def integrateUpdateMetadata (fuel : Nat) (o : UpdateMetadata) (s : FileSet) :
    Option (Except FileSetError Unit × FileSet) :=
  match o.data with
  | .filenameTx newComps =>
      match aFind s.files o.id with
      | none => some (Except.error (.IDNotFound o.id.1 o.id.2), s)
      | some md =>
          if md.filename.1 > o.state.time_stamp ∨
              (md.filename.1 = o.state.time_stamp ∧ s.site_id > o.state.site_id) then
            some (Except.ok (), s)
          else do
            let r1 := removeFile (getLocalFilename md) s.id_lookup
            let r2 ← addFile fuel newComps o.id o.state.site_id r1.2
            let md1 := { md with
              filename := (o.state.time_stamp, newComps)
              printed_filename := r2.1 }
            some (Except.ok (),
              { s with files := aInsert s.files o.id md1, id_lookup := r2.2 })
  | .customTx key value =>
      match aFind s.files o.id with
      | none => some (Except.error (.IDNotFound o.id.1 o.id.2), s)
      | some md =>
          match aFind md.attributes key with
          | some val =>
              if val.1 > o.state.time_stamp ∨
                  (val.1 = o.state.time_stamp ∧ s.site_id > o.state.site_id) then
                some (Except.ok (), s)
              else
                let attrs1 := aInsert md.attributes key (o.state.time_stamp, value)
                let md1 := { md with attributes := attrs1 }
                some (Except.ok (), { s with files := aInsert s.files o.id md1 })
          | none =>
              let attrs1 := aInsert md.attributes key (o.state.time_stamp, value)
              let md1 := { md with attributes := attrs1 }
              some (Except.ok (), { s with files := aInsert s.files o.id md1 })

/-- `FileSet::integrate_remote`: dispatch on the operation variant and then
persist the snapshot (`save()` does not change the in-memory state). -/
def integrateRemote (fuel : Nat) (op : FileSetOperation) (s : FileSet) :
    Option (Except FileSetError Unit × FileSet) :=
  match op with
  | .create o => integrateCreate fuel o s
  | .remove o => some (integrateRemove o s)
  | .update id => some (integrateUpdate id s)
  | .updateMetadata o => integrateUpdateMetadata fuel o s

/-- `FileSet::process_remove`: remove the path from the trie (`unwrap`, so the
path must resolve — `none` models the panic), remove
`files[(self.site_id, id)]` — the source uses the *local* `self.site_id`
here, not the site part returned by the trie — and emit `Remove` carrying the
`(site_id, id)` pair the trie returned. -/
def processRemove (path : List Str) (s : FileSet) :
    Option (RemoveOperation × FileSet) :=
  match removeFile path s.id_lookup with
  | (none, _) => none
  | (some fid, trie1) =>
      some ({ id := (fid.1, fid.2) },
        { s with files := aErase s.files (s.site_id, fid.2), id_lookup := trie1 })

/-- `NetworkEndian::write_u32`: the four big-endian bytes of a `u32`. -/
def writeU32 (n : Nat) : List Nat :=
  [n / 16777216 % 256, n / 65536 % 256, n / 256 % 256, n % 256]

/-- A length-prefixed string: `u32` byte count, then the raw bytes. -/
def writeStrBytes (s : Str) : List Nat := writeU32 s.length ++ s

/-- Bytes contributed to the snapshot by one attribute entry. -/
def encodeAttr (a : Str × (Nat × Str)) : List Nat :=
  writeStrBytes a.1 ++ writeU32 a.2.1 ++ writeStrBytes a.2.2

/-- Bytes contributed to the snapshot by one `files` entry. -/
def encodeEntry (e : FileID × FileMetadata) : List Nat :=
  writeU32 e.1.1 ++ writeU32 e.1.2 ++ writeU32 e.2.filename.1 ++
    writeU32 e.2.filename.2.length ++
    (e.2.filename.2.map writeStrBytes).flatten ++
    writeStrBytes e.2.printed_filename ++
    writeU32 e.2.attributes.length ++
    (e.2.attributes.map encodeAttr).flatten

/-- `FileSet::compress_to`: header (`last_timestamp`, `last_id`, `site_id`,
`files.len()`), then each `files` entry in iteration order. -/
def compressTo (s : FileSet) : List Nat :=
  writeU32 s.last_timestamp ++ writeU32 s.last_id ++ writeU32 s.site_id ++
    writeU32 s.files.length ++ (s.files.map encodeEntry).flatten

/-- `NetworkEndian::read_u32` after a 4-byte `read_exact`: fails (`Err`) when
fewer than 4 bytes remain. -/
def readU32 : List Nat → Option (Nat × List Nat)
  | b0 :: b1 :: b2 :: b3 :: rest =>
      some (b0 * 16777216 + b1 * 65536 + b2 * 256 + b3, rest)
  | _ => none

/-- `read_str`: a `u32` length, then that many raw bytes (lossy UTF-8 decoding
of the bytes of a valid Rust string is the identity). -/
def readStrBytes (l : List Nat) : Option (Str × List Nat) := do
  let r ← readU32 l
  if r.1 ≤ r.2.length then some (r.2.take r.1, r.2.drop r.1) else none

/-- The component-reading loop of `expand_from` (components kept in order). -/
def readComps : Nat → List Nat → Option (List Str × List Nat)
  | 0, l => some ([], l)
  | n + 1, l => do
      let r ← readStrBytes l
      let rest ← readComps n r.2
      some (r.1 :: rest.1, rest.2)

/-- The attribute-reading loop of `expand_from`: each `(key, timestamp,
value)` triple is inserted into the accumulated attribute map. -/
def readAttrs : Nat → List (Str × (Nat × Str)) → List Nat →
    Option (List (Str × (Nat × Str)) × List Nat)
  | 0, acc, l => some (acc, l)
  | n + 1, acc, l => do
      let k ← readStrBytes l
      let t ← readU32 k.2
      let v ← readStrBytes t.2
      readAttrs n (aInsert acc k.1 (t.1, v.1)) v.2

/-- The per-file loop of `expand_from`: parse one entry, re-add it to the
lookup trie under `get_local_filename()` with author `file_site_id`
(the printed name returned by `add_file` is discarded), and insert the
metadata into the accumulated files map. -/
def readEntriesLoop (fuel : Nat) : Nat → List (FileID × FileMetadata) →
    LookupNode → List Nat →
    Option (List (FileID × FileMetadata) × LookupNode × List Nat)
  | 0, files, trie, l => some (files, trie, l)
  | n + 1, files, trie, l => do
      let siteR ← readU32 l
      let idR ← readU32 siteR.2
      let tsR ← readU32 idR.2
      let cntR ← readU32 tsR.2
      let compsR ← readComps cntR.1 cntR.2
      let printedR ← readStrBytes compsR.2
      let attrCntR ← readU32 printedR.2
      let attrsR ← readAttrs attrCntR.1 [] attrCntR.2
      let md : FileMetadata :=
        { filename := (tsR.1, compsR.1)
          printed_filename := printedR.1
          attributes := attrsR.1 }
      let addR ← addFile fuel (getLocalFilename md) (siteR.1, idR.1) siteR.1 trie
      readEntriesLoop fuel n (aInsert files (siteR.1, idR.1) md) addR.2 attrsR.2

/-- `FileSet::expand_from`: parse the header, loop over the entries, and
assemble the replica. -/
def expandFrom (fuel : Nat) (l : List Nat) : Option FileSet := do
  let ltR ← readU32 l
  let liR ← readU32 ltR.2
  let sidR ← readU32 liR.2
  let cntR ← readU32 sidR.2
  let r ← readEntriesLoop fuel cntR.1 [] LookupNode.newNode cntR.2
  some { files := r.1
         id_lookup := r.2.1
         last_timestamp := ltR.1
         last_id := liR.1
         site_id := sidR.1 }

/-- Boolean prefix test on paths: `pathPre q p` holds when `q` is a (not
necessarily proper) prefix of `p`. -/
def pathPre : List Str → List Str → Bool
  | [], _ => true
  | _ :: _, [] => false
  | a :: q, b :: p => if a = b then pathPre q p else false

/-- Modelled from the spec (not the source): the canonical LWW tie-break
formula of §4.3, `accept iff stored.timestamp < op.timestamp OR
(stored.timestamp == op.timestamp AND stored.author_site_id ≤ op.site_id)`.
The source stores no author site and compares `self.site_id` instead; this
definition exists to exhibit the divergence. -/
def lwwAcceptSpec (storedTs storedSite opTs opSite : Nat) : Bool :=
  if storedTs < opTs then true
  else if storedTs = opTs ∧ storedSite ≤ opSite then true
  else false

/-- One `integrate_remote` step for an `UpdateMetadata` operation; fuel 0
suffices for every `Custom` operation (that branch never touches the trie),
and the `getD s` default is never taken for them. -/
def stepRM (s : FileSet) (o : UpdateMetadata) : FileSet :=
  ((integrateRemote 0 (.updateMetadata o) s).map Prod.snd).getD s

/-- Integrating a list of `UpdateMetadata` operations in order. -/
def applyOps (s : FileSet) (ops : List UpdateMetadata) : FileSet :=
  ops.foldl stepRM s

/-- The attribute-register transition applied by the `Custom` branch of
`integrate_update_metadata` at one key: a vacant register accepts
unconditionally; an occupied one keeps its value iff it is strictly newer or
tied with the local site greater than the author's. `o` is
`(timestamp, author_site, value)`. -/
def lwwStep (localSite : Nat) (cur : Option (Nat × Str)) (o : Nat × Nat × Str) :
    Option (Nat × Str) :=
  match cur with
  | none => some (o.1, o.2.2)
  | some v =>
      if v.1 > o.1 ∨ (v.1 = o.1 ∧ localSite > o.2.1) then some v
      else some (o.1, o.2.2)

/-- Folding the attribute register over a list of operations. -/
def lwwFold (localSite : Nat) (init : Option (Nat × Str))
    (l : List (Nat × Nat × Str)) : Option (Nat × Str) :=
  l.foldl (lwwStep localSite) init

/-- The `(timestamp, author_site, value)` triple that an `UpdateMetadata`
operation contributes to the register of file `fid` at attribute `key`
(`none` when the operation targets another file, another key, or is not a
`Custom` operation). -/
def projOp (fid : FileID) (key : Str) (o : UpdateMetadata) :
    Option (Nat × Nat × Str) :=
  match o.data with
  | .customTx k v =>
      if o.id = fid ∧ k = key then some (o.state.time_stamp, o.state.site_id, v)
      else none
  | .filenameTx _ => none

/-- All contributions of an operation list to the register `(fid, key)`. -/
def projOps (ops : List UpdateMetadata) (fid : FileID) (key : Str) :
    List (Nat × Nat × Str) :=
  ops.filterMap (projOp fid key)

/-- The candidate `(timestamp, value)` pairs a register can end up holding:
the initial content and each operation's stamp and value. -/
def candList (init : Option (Nat × Str)) (l : List (Nat × Nat × Str)) :
    List (Nat × Str) :=
  init.toList ++ l.map (fun o => (o.1, o.2.2))

/-- The timestamps of the candidates. -/
def candTs (init : Option (Nat × Str)) (l : List (Nat × Nat × Str)) : List Nat :=
  (candList init l).map Prod.fst

/-- Whether an `UpdateMetadata` operation is a `Custom` one. -/
def isCustomOp (o : UpdateMetadata) : Bool :=
  match o.data with
  | .customTx _ _ => true
  | .filenameTx _ => false

/-- The stored `(timestamp, value)` of attribute `key` of file `fid`, if
any — the initial content of that attribute register. -/
def initAttr (s : FileSet) (fid : FileID) (key : Str) : Option (Nat × Str) :=
  match aFind s.files fid with
  | none => none
  | some md => aFind md.attributes key

/-- The `(file, key)` register an operation targets, when it is a `Custom`
operation. -/
def opKey (o : UpdateMetadata) : Option (FileID × Str) :=
  match o.data with
  | .customTx k _ => some (o.id, k)
  | .filenameTx _ => none

/-- All registers targeted by a list of operations. -/
def opTargets (ops : List UpdateMetadata) : List (FileID × Str) :=
  ops.filterMap opKey

/-- Extensional equality of optional file metadata, matching Rust `HashMap`
equality on the attribute maps: both absent, or both present with equal
filename stamp, equal printed name, and pointwise-equal attribute maps. -/
def optMdSame : Option FileMetadata → Option FileMetadata → Prop
  | none, none => True
  | some a, some b =>
      a.filename = b.filename ∧ a.printed_filename = b.printed_filename ∧
        ∀ k, aFind a.attributes k = aFind b.attributes k
  | _, _ => False

/-- Validity of a string for serialization: its `u32` byte count fits, and
every byte is a byte. -/
def strValid (s : Str) : Prop := s.length < 4294967296 ∧ ∀ b ∈ s, b < 256

/-- Validity of one `files` entry for serialization: all `u32` fields in
range, a non-empty component list (`get_local_filename` slices
`0..len-1`), valid strings, and `HashMap`-unique attribute keys. -/
def entryValid (e : FileID × FileMetadata) : Prop :=
  e.1.1 < 4294967296 ∧ e.1.2 < 4294967296 ∧
    e.2.filename.1 < 4294967296 ∧ e.2.filename.2 ≠ [] ∧
    e.2.filename.2.length < 4294967296 ∧ (∀ c ∈ e.2.filename.2, strValid c) ∧
    strValid e.2.printed_filename ∧ e.2.attributes.length < 4294967296 ∧
    (e.2.attributes.map Prod.fst).Nodup ∧
    ∀ a ∈ e.2.attributes, strValid a.1 ∧ a.2.1 < 4294967296 ∧ strValid a.2.2

/-- A valid replica state (§3 invariants, restricted to the in-memory data
the snapshot covers): `u32` bounds, `HashMap`-unique file keys, every file
reachable in the trie at exactly its on-disk path
(`parent components + printed_filename`), and every trie leaf backed by its
file. -/
def ValidFileSet (s : FileSet) : Prop :=
  s.last_timestamp < 4294967296 ∧ s.last_id < 4294967296 ∧
    s.site_id < 4294967296 ∧ s.files.length < 4294967296 ∧
    (s.files.map Prod.fst).Nodup ∧
    (∀ e ∈ s.files, entryValid e) ∧
    (∀ e ∈ s.files, idLookup (getLocalFilename e.2) s.id_lookup = some e.1) ∧
    (∀ pf ∈ trieLeaves s.id_lookup,
      (aFind s.files pf.2).map getLocalFilename = some pf.1)

instance decStrValid (s : Str) : Decidable (strValid s) := by
  unfold strValid
  infer_instance

instance decEntryValid (e : FileID × FileMetadata) : Decidable (entryValid e) := by
  unfold entryValid
  infer_instance

instance decValidFileSet (s : FileSet) : Decidable (ValidFileSet s) := by
  unfold ValidFileSet
  infer_instance

/-- Bytes of `"a.txt"`. -/
def aTxt : Str := [97, 46, 116, 120, 116]

/-- Bytes of `"a.txt(site 2)"`, the collision-renamed sibling of `"a.txt"`
for author site 2. -/
def aTxt2 : Str := aTxt ++ siteSuffix 2

/-- Bytes of `"d"`. -/
def dirC : Str := [100]

/-- Bytes of `"k"`. -/
def keyK : Str := [107]

/-- Bytes of `"x"`. -/
def valX : Str := [120]

/-- Bytes of `"y"`. -/
def valY : Str := [121]

/-- Metadata of a file created locally at path `["a.txt"]` at timestamp 0. -/
def mdPlain : FileMetadata :=
  { filename := (0, [aTxt]), printed_filename := aTxt, attributes := [] }

/-- A trie holding `(1,0)` at path `["a.txt"]`. -/
def trieA : LookupNode := .mk none [(aTxt, .mk (some (1, 0)) [])]

/-- The replica of spec scenario S2: site 1, one file `(1,0)` at
`["a.txt"]`. -/
def s2rep : FileSet :=
  { files := [((1, 0), mdPlain)], id_lookup := trieA,
    last_timestamp := 1, last_id := 1, site_id := 1 }

/-- The remote operation of spec scenario S2:
`Create{state:(5,2), id:(2,7), filename:["a.txt"]}`. -/
def createOpS2 : CreateOperation :=
  { state := { time_stamp := 5, site_id := 2 }, filename := [aTxt], id := (2, 7) }

/-- The metadata scenario S2 expects for `(2,7)` after integration. -/
def mdNewS2 : FileMetadata :=
  { filename := (5, [aTxt]), printed_filename := aTxt2, attributes := [] }

/-- Metadata of the remotely-created file of the `process_remove` scenario. -/
def mdRemote : FileMetadata :=
  { filename := (0, [aTxt]), printed_filename := aTxt, attributes := [] }

/-- Metadata of the locally-created file of the `process_remove` scenario. -/
def mdLocal : FileMetadata :=
  { filename := (0, [dirC]), printed_filename := dirC, attributes := [] }

/-- Trie of the `process_remove` scenario: `["a.txt"] ↦ (2,5)` and
`["d"] ↦ (1,5)`. -/
def trieRL : LookupNode :=
  .mk none [(aTxt, .mk (some (2, 5)) []), (dirC, .mk (some (1, 5)) [])]

/-- The `process_remove` scenario replica: site 1 tracks the remotely
created file `(2,5)` at `["a.txt"]` and its own file `(1,5)` at `["d"]`. -/
def s4rep : FileSet :=
  { files := [((2, 5), mdRemote), ((1, 5), mdLocal)], id_lookup := trieRL,
    last_timestamp := 0, last_id := 0, site_id := 1 }

/-- The convergence counterexample replica: site 3, one file `(1,0)` with no
attributes. -/
def s1rep : FileSet :=
  { files := [((1, 0), mdPlain)], id_lookup := trieA,
    last_timestamp := 0, last_id := 0, site_id := 3 }

/-- `UpdateMetadata{state:(10,1), id:(1,0), Custom("k","x")}`. -/
def opX : UpdateMetadata :=
  { state := { time_stamp := 10, site_id := 1 }, id := (1, 0),
    data := .customTx keyK valX }

/-- `UpdateMetadata{state:(10,2), id:(1,0), Custom("k","y")}`. -/
def opY : UpdateMetadata :=
  { state := { time_stamp := 10, site_id := 2 }, id := (1, 0),
    data := .customTx keyK valY }

/-- `UpdateMetadata{state:(11,2), id:(1,0), Custom("k","y")}` — a timestamp
distinct from `opX`'s, for the convergence witness. -/
def opZ : UpdateMetadata :=
  { state := { time_stamp := 11, site_id := 2 }, id := (1, 0),
    data := .customTx keyK valY }

/-- The LWW-tie counterexample replica for the attribute rule: site 5, one
file `(1,0)` with no attributes. -/
def s2crep : FileSet :=
  { files := [((1, 0), mdPlain)], id_lookup := trieA,
    last_timestamp := 0, last_id := 0, site_id := 5 }

/-- `UpdateMetadata{state:(10,2), id:(1,0), Custom("k","x")}` — after this is
integrated, the stored value of `"k"` was authored by site 2. -/
def opA2 : UpdateMetadata :=
  { state := { time_stamp := 10, site_id := 2 }, id := (1, 0),
    data := .customTx keyK valX }

/-- `UpdateMetadata{state:(10,3), id:(1,0), Custom("k","y")}`. -/
def opB3 : UpdateMetadata :=
  { state := { time_stamp := 10, site_id := 3 }, id := (1, 0),
    data := .customTx keyK valY }

/-- The replica after `s2crep` integrates `opA2`: attribute `"k"` holds
`(10, "x")`, authored by site 2. -/
def s2cMid : FileSet := stepRM s2crep opA2

/-- The metadata of `(1,0)` inside `s2cMid`: attribute `"k" ↦ (10, "x")`. -/
def mdMidC2 : FileMetadata :=
  { filename := (0, [aTxt]), printed_filename := aTxt,
    attributes := [(keyK, (10, valX))] }

/-- The trie of the `remove_file` counterexample: a file at `["a.txt"]` and
another at `["a.txt", "d"]` (a stored path that is a proper prefix of the
removed path). -/
def trieC3 : LookupNode :=
  .mk none [(aTxt, .mk (some (1, 1)) [(dirC, .mk (some (1, 2)) [])])]

/-- Metadata already stored under `(2,7)` in the duplicate-`Create`
scenario; it carries an attribute, to make the unconditional replacement
visible. -/
def mdOld8 : FileMetadata :=
  { filename := (0, [aTxt]), printed_filename := aTxt,
    attributes := [(keyK, (3, valX))] }

/-- Trie of the duplicate-`Create` scenario: `["a.txt"] ↦ (2,7)`. -/
def trie8 : LookupNode := .mk none [(aTxt, .mk (some (2, 7)) [])]

/-- Replica that already tracks `(2,7)` at `["a.txt"]`. -/
def s8rep : FileSet :=
  { files := [((2, 7), mdOld8)], id_lookup := trie8,
    last_timestamp := 0, last_id := 0, site_id := 1 }

/-- `Create{state:(5,2), id:(2,7), filename:["a.txt"]}` — same `FileID` as
the file `s8rep` already tracks. -/
def createOpDup : CreateOperation :=
  { state := { time_stamp := 5, site_id := 2 }, filename := [aTxt], id := (2, 7) }

/-- The trie the source produces when `s8rep` integrates `createOpDup`: the
old leaf stays at `["a.txt"]` and the new leaf lands at the doubled path
`["a.txt(site 2)", "a.txt(site 2)"]`. -/
def trie8post : LookupNode :=
  .mk none [(aTxt, .mk (some (2, 7)) []),
    (aTxt2, .mk none [(aTxt2, .mk (some (2, 7)) [])])]

/-- The replica the source produces when `s8rep` integrates `createOpDup`. -/
def s8post : FileSet :=
  { files := [((2, 7), mdNewS2)], id_lookup := trie8post,
    last_timestamp := 0, last_id := 0, site_id := 1 }

/-- First file of the snapshot round-trip witness: one attribute, a
single-component path. -/
def mdW1 : FileMetadata :=
  { filename := (0, [aTxt]), printed_filename := aTxt,
    attributes := [(keyK, (3, valX))] }

/-- Second file of the snapshot round-trip witness: a two-component path. -/
def mdW2 : FileMetadata :=
  { filename := (1, [dirC, keyK]), printed_filename := keyK, attributes := [] }

/-- Trie of the snapshot round-trip witness. -/
def trieW : LookupNode :=
  .mk none [(aTxt, .mk (some (3, 0)) []), (dirC, .mk none [(keyK, .mk (some (3, 1)) [])])]

/-- The snapshot round-trip witness replica (spec scenario S6 shape):
`last_timestamp = 42`, `last_id = 7`, `site_id = 3`, two files, one with an
attribute and a two-component path. -/
def s6rep : FileSet :=
  { files := [((3, 0), mdW1), ((3, 1), mdW2)], id_lookup := trieW,
    last_timestamp := 42, last_id := 7, site_id := 3 }

/-- Metadata with attribute `key` set to `(ts, value)` (the effect of the
`Custom` branch when it applies an operation). -/
def setAttr (md : FileMetadata) (key : Str) (ts : Nat) (value : Str) : FileMetadata :=
  { md with attributes := aInsert md.attributes key (ts, value) }

/-- The replica with the metadata of `fid` replaced. -/
def setFile (s : FileSet) (fid : FileID) (md : FileMetadata) : FileSet :=
  { s with files := aInsert s.files fid md }

instance decEqExcept {ε α : Type} [DecidableEq ε] [DecidableEq α] :
    DecidableEq (Except ε α) := fun x y =>
  match x, y with
  | .ok a, .ok b =>
      if h : a = b then .isTrue (congrArg Except.ok h)
      else .isFalse (fun hh => h (Except.ok.inj hh))
  | .error a, .error b =>
      if h : a = b then .isTrue (congrArg Except.error h)
      else .isFalse (fun hh => h (Except.error.inj hh))
  | .ok _, .error _ => .isFalse (fun hh => Except.noConfusion hh)
  | .error _, .ok _ => .isFalse (fun hh => Except.noConfusion hh)

/-- Building a `HashMap` by repeated insertion, starting from `acc`. -/
def insFold {κ α : Type} [DecidableEq κ] (acc : List (κ × α)) (l : List (κ × α)) :
    List (κ × α) :=
  l.foldl (fun m e => aInsert m e.1 e.2) acc

theorem aFind_aInsert_self {κ α : Type} [DecidableEq κ] (l : List (κ × α)) (k : κ) (v : α) :
    aFind (aInsert l k v) k = some v := by
  induction l with
  | nil => simp [aInsert, aFind]
  | cons hd tl ih =>
      obtain ⟨k0, v0⟩ := hd
      by_cases h : k0 = k <;> simp [aInsert, aFind, h, ih]

theorem aFind_aInsert_other {κ α : Type} [DecidableEq κ] (l : List (κ × α)) (k k' : κ) (v : α)
    (h : k' ≠ k) : aFind (aInsert l k v) k' = aFind l k' := by
  induction l with
  | nil => simp [aInsert, aFind, Ne.symm h]
  | cons hd tl ih =>
      obtain ⟨k0, v0⟩ := hd
      by_cases h0 : k0 = k
      · subst h0
        simp [aInsert, aFind, Ne.symm h]
      · by_cases h1 : k0 = k' <;> simp [aInsert, aFind, h0, h1, ih, h]

theorem aFind_aErase_other {κ α : Type} [DecidableEq κ] (l : List (κ × α)) (k k' : κ)
    (h : k' ≠ k) : aFind (aErase l k) k' = aFind l k' := by
  induction l with
  | nil => simp [aErase, aFind]
  | cons hd tl ih =>
      obtain ⟨k0, v0⟩ := hd
      by_cases h0 : k0 = k
      · subst h0
        simp [aErase, aFind, Ne.symm h]
      · by_cases h1 : k0 = k' <;> simp [aErase, aFind, h0, h1, ih, h]

theorem aFind_mem {κ α : Type} [DecidableEq κ] (l : List (κ × α)) (k : κ) (v : α)
    (h : aFind l k = some v) : (k, v) ∈ l := by
  induction l with
  | nil => simp [aFind] at h
  | cons hd tl ih =>
      obtain ⟨k0, v0⟩ := hd
      by_cases h0 : k0 = k
      · subst h0
        simp [aFind] at h
        simp [h]
      · simp [aFind, h0] at h
        exact List.mem_cons_of_mem _ (ih h)

theorem aFind_aErase_self {κ α : Type} [DecidableEq κ] (l : List (κ × α)) (k : κ)
    (h : (l.map Prod.fst).Nodup) : aFind (aErase l k) k = none := by
  induction l with
  | nil => simp [aErase, aFind]
  | cons hd tl ih =>
      obtain ⟨k0, v0⟩ := hd
      simp only [List.map_cons, List.nodup_cons] at h
      by_cases h0 : k0 = k
      · subst h0
        simp only [aErase, if_pos rfl]
        cases hf : aFind tl k0 with
        | none => exact hf
        | some w => exact absurd (List.mem_map_of_mem Prod.fst (aFind_mem tl k0 w hf)) h.1
      · simp [aErase, aFind, h0, ih h.2]

theorem aInsert_notMem {κ α : Type} [DecidableEq κ] (l : List (κ × α)) (k : κ) (v : α)
    (h : aFind l k = none) : aInsert l k v = l ++ [(k, v)] := by
  induction l with
  | nil => simp [aInsert]
  | cons hd tl ih =>
      obtain ⟨k0, v0⟩ := hd
      by_cases h0 : k0 = k
      · simp [aFind, h0] at h
      · simp [aFind, h0] at h
        simp [aInsert, h0, ih h]

theorem memEqOfNodupMap {α β : Type} (f : α → β) (l : List α) (a b : α)
    (h : (l.map f).Nodup) (ha : a ∈ l) (hb : b ∈ l) (hf : f a = f b) : a = b := by
  induction l with
  | nil => simp at ha
  | cons hd tl ih =>
      simp only [List.map_cons, List.nodup_cons] at h
      rcases List.mem_cons.mp ha with rfl | ha'
      · rcases List.mem_cons.mp hb with rfl | hb'
        · rfl
        · exact absurd (hf ▸ List.mem_map_of_mem f hb') h.1
      · rcases List.mem_cons.mp hb with rfl | hb'
        · exact absurd (hf ▸ List.mem_map_of_mem f ha') h.1
        · exact ih h.2 ha' hb'

theorem idLookup_newNode (q : List Str) : idLookup q LookupNode.newNode = none := by
  cases q <;> simp [idLookup, LookupNode.newNode, LookupNode.nid, LookupNode.childList, aFind]

theorem idLookup_no_children (n : LookupNode) (q : List Str)
    (h : n.childList = []) (hq : q ≠ []) : idLookup q n = none := by
  cases q with
  | nil => exact absurd rfl hq
  | cons c rest =>
      obtain ⟨i, cs⟩ := n
      simp only [LookupNode.childList] at h
      subst h
      simp [idLookup, LookupNode.childList, aFind]

theorem addFileComponent_vacant (p : List Str) (fuel : Nat) (fid : FileID) (site : Nat)
    (t : LookupNode) (h : idLookup p t = none) :
    ∃ r t', addFileComponent fuel p fid site t = some ((false, r), t') ∧
      (p ≠ [] → r.isSome = true) ∧
      ∀ q, idLookup q t' = if q = p then some fid else idLookup q t := by
  induction p generalizing t with
  | nil =>
      obtain ⟨i, cs⟩ := t
      simp only [idLookup, LookupNode.nid] at h
      subst h
      refine ⟨none, .mk (some fid) cs, by simp [addFileComponent, addLeaf], by simp, ?_⟩
      intro q
      cases q with
      | nil => simp [idLookup, LookupNode.nid]
      | cons c rest => simp [idLookup, LookupNode.childList]
  | cons c rest ih =>
      obtain ⟨i, cs⟩ := t
      have hchild : idLookup rest ((aFind cs c).getD LookupNode.newNode) = none := by
        cases hf : aFind cs c with
        | none => simp [idLookup_newNode]
        | some ch =>
            simp only [idLookup, LookupNode.childList, hf] at h
            simpa using h
      obtain ⟨r0, child', hc, hs, hlook⟩ := ih ((aFind cs c).getD LookupNode.newNode) hchild
      refine ⟨some (r0.getD c), .mk i (aInsert cs c child'), ?_, by simp, ?_⟩
      · simp only [addFileComponent, hc]
        cases r0 <;> simp
      · intro q
        cases q with
        | nil =>
            simp [idLookup, LookupNode.nid]
        | cons d q' =>
            by_cases hd : d = c
            · subst hd
              have hout : idLookup (d :: q') (LookupNode.mk i (aInsert cs d child')) =
                  idLookup q' child' := by
                simp [idLookup, LookupNode.childList, aFind_aInsert_self]
              rw [hout, hlook q']
              by_cases hq : q' = rest
              · subst hq
                simp
              · rw [if_neg hq, if_neg (fun hh => hq (by injection hh))]
                cases hf : aFind cs d with
                | none => simp [hf, idLookup, LookupNode.childList, idLookup_newNode]
                | some ch => simp [hf, idLookup, LookupNode.childList]
            · rw [if_neg (fun hh => hd (by injection hh))]
              simp [idLookup, LookupNode.childList, aFind_aInsert_other cs c d _ hd]

theorem addFile_vacant (p : List Str) (fuel : Nat) (fid : FileID) (site : Nat)
    (t : LookupNode) (hne : p ≠ []) (h : idLookup p t = none) :
    ∃ printed t', addFile fuel p fid site t = some (printed, t') ∧
      ∀ q, idLookup q t' = if q = p then some fid else idLookup q t := by
  obtain ⟨r, t', hc, hs, hlook⟩ := addFileComponent_vacant p fuel fid site t h
  obtain ⟨s, rfl⟩ := Option.isSome_iff_exists.mp (hs hne)
  exact ⟨s, t', by simp [addFile, hc], hlook⟩

theorem wfChildren_find (cs : List (Str × LookupNode)) (c : Str) (child : LookupNode)
    (h : wfChildren cs = true) (hf : aFind cs c = some child) : wfNode child = true := by
  induction cs with
  | nil => simp [aFind] at hf
  | cons hd tl ih =>
      obtain ⟨k0, ch0⟩ := hd
      simp only [wfChildren, Bool.and_eq_true] at h
      by_cases h0 : k0 = c
      · simp only [aFind, if_pos h0] at hf
        cases hf
        exact h.1
      · simp only [aFind, if_neg h0] at hf
        exact ih h.2 hf

theorem removeFile_found (p : List Str) (t : LookupNode) (fid : FileID)
    (hw : wfNode t = true) (h : idLookup p t = some fid) :
    (removeFileComponent p t).1.2 = some fid ∧
    (removeFileComponent p t).1.1 = (removeFileComponent p t).2.childList.isEmpty ∧
    idLookup p (removeFileComponent p t).2 = none ∧
    ∀ q, pathPre q p = false → idLookup q (removeFileComponent p t).2 = idLookup q t := by
  induction p generalizing t with
  | nil =>
      obtain ⟨i, cs⟩ := t
      simp only [idLookup, LookupNode.nid] at h
      subst h
      refine ⟨rfl, rfl, by simp [idLookup, LookupNode.nid, removeFileComponent], ?_⟩
      intro q hq
      cases q with
      | nil => simp [pathPre] at hq
      | cons d q' => simp [removeFileComponent, idLookup, LookupNode.childList]
  | cons c rest ih =>
      obtain ⟨i, cs⟩ := t
      simp only [idLookup, LookupNode.childList] at h
      cases hf : aFind cs c with
      | none => simp [hf] at h
      | some child =>
          rw [hf] at h
          simp only [wfNode, Bool.and_eq_true] at hw
          have hwc : wfNode child = true := wfChildren_find cs c child hw.2 hf
          have hnd : (cs.map Prod.fst).Nodup := of_decide_eq_true hw.1
          obtain ⟨ih1, ih2, ih3, ih4⟩ := ih child hwc h
          have hstep : removeFileComponent (c :: rest) (.mk i cs) =
              (((if (removeFileComponent rest child).1.1 then aErase cs c
                  else aInsert cs c (removeFileComponent rest child).2).isEmpty,
                (removeFileComponent rest child).1.2),
               .mk i (if (removeFileComponent rest child).1.1 then aErase cs c
                  else aInsert cs c (removeFileComponent rest child).2)) := by
            simp [removeFileComponent, hf]
          rw [hstep]
          refine ⟨ih1, rfl, ?_, ?_⟩
          · cases hflag : (removeFileComponent rest child).1.1 with
            | true =>
                simp only [hflag, if_pos]
                simp [idLookup, LookupNode.childList, aFind_aErase_self cs c hnd]
            | false =>
                simp only [hflag, Bool.false_eq_true, if_neg]
                simp [idLookup, LookupNode.childList, aFind_aInsert_self, ih3]
          · intro q hq
            cases q with
            | nil => simp [idLookup, LookupNode.nid]
            | cons d q' =>
                by_cases hd : d = c
                · subst hd
                  simp only [pathPre, if_pos rfl] at hq
                  have hq' : q' ≠ [] := by
                    intro hnil
                    subst hnil
                    simp [pathPre] at hq
                  cases hflag : (removeFileComponent rest child).1.1 with
                  | true =>
                      have hempty : (removeFileComponent rest child).2.childList = [] := by
                        rw [hflag] at ih2
                        exact List.isEmpty_iff.mp ih2.symm
                      have hzero : idLookup q' (removeFileComponent rest child).2 = none :=
                        idLookup_no_children _ q' hempty hq'
                      rw [ih4 q' hq] at hzero
                      simp [hflag, idLookup, LookupNode.childList,
                        aFind_aErase_self cs d hnd, hf, hzero]
                  | false =>
                      simp [hflag, idLookup, LookupNode.childList, aFind_aInsert_self,
                        hf, ih4 q' hq]
                · simp only [idLookup, LookupNode.childList]
                  cases hflag : (removeFileComponent rest child).1.1 with
                  | true => rw [if_pos rfl, aFind_aErase_other cs c d hd]
                  | false => rw [if_neg (by simp), aFind_aInsert_other cs c d _ hd]

theorem readU32_writeU32 (n : Nat) (rest : List Nat) (h : n < 4294967296) :
    readU32 (writeU32 n ++ rest) = some (n, rest) := by
  have hexp : n / 16777216 % 256 * 16777216 + n / 65536 % 256 * 65536 +
      n / 256 % 256 * 256 + n % 256 = n := by omega
  simp [writeU32, readU32, hexp]

theorem readStr_writeStr (s : Str) (rest : List Nat) (h : s.length < 4294967296) :
    readStrBytes (writeStrBytes s ++ rest) = some (s, rest) := by
  simp only [writeStrBytes, List.append_assoc]
  rw [readStrBytes, readU32_writeU32 _ _ h]
  simp [List.take_left, List.drop_left]

theorem readComps_roundtrip (comps : List Str) (rest : List Nat)
    (h : ∀ c ∈ comps, c.length < 4294967296) :
    readComps comps.length ((comps.map writeStrBytes).flatten ++ rest) =
      some (comps, rest) := by
  induction comps with
  | nil => simp [readComps]
  | cons c tl ih =>
      simp only [List.map_cons, List.flatten_cons, List.length_cons, List.append_assoc]
      rw [readComps, readStr_writeStr c _ (h c (by simp))]
      simp only [Option.bind_eq_bind, Option.some_bind]
      rw [ih (fun d hd => h d (by simp [hd]))]
      rfl

theorem readAttrs_roundtrip (attrs : List (Str × (Nat × Str))) (rest : List Nat) :
    ∀ acc, (∀ a ∈ attrs, strValid a.1 ∧ a.2.1 < 4294967296 ∧ strValid a.2.2) →
    readAttrs attrs.length acc ((attrs.map encodeAttr).flatten ++ rest) =
      some (insFold acc attrs, rest) := by
  induction attrs with
  | nil => intro acc h; simp [readAttrs, insFold]
  | cons a tl ih =>
      intro acc h
      obtain ⟨hk, ht, hv⟩ := h a (by simp)
      simp only [List.map_cons, List.flatten_cons, List.length_cons, encodeAttr,
        List.append_assoc]
      rw [readAttrs, readStr_writeStr a.1 _ hk.1]
      simp only [Option.bind_eq_bind, Option.some_bind]
      rw [readU32_writeU32 _ _ ht]
      simp only [Option.some_bind]
      rw [readStr_writeStr a.2.2 _ hv.1]
      simp only [Option.some_bind]
      rw [ih _ (fun b hb => h b (by simp [hb]))]
      rfl

theorem aFind_append {κ α : Type} [DecidableEq κ] (l1 l2 : List (κ × α)) (k : κ) :
    aFind (l1 ++ l2) k =
      match aFind l1 k with
      | some v => some v
      | none => aFind l2 k := by
  induction l1 with
  | nil => simp [aFind]
  | cons hd tl ih =>
      obtain ⟨k0, v0⟩ := hd
      by_cases h0 : k0 = k <;> simp [aFind, h0, ih]

theorem insFold_fresh {κ α : Type} [DecidableEq κ] (l : List (κ × α)) :
    ∀ acc, (∀ e ∈ l, aFind acc e.1 = none) → (l.map Prod.fst).Nodup →
    insFold acc l = acc ++ l := by
  induction l with
  | nil => intro acc _ _; simp [insFold]
  | cons e tl ih =>
      intro acc hdis hnd
      simp only [List.map_cons, List.nodup_cons] at hnd
      have hins : aInsert acc e.1 e.2 = acc ++ [(e.1, e.2)] :=
        aInsert_notMem acc e.1 e.2 (hdis e (by simp))
      have hstep : insFold acc (e :: tl) = insFold (aInsert acc e.1 e.2) tl := rfl
      rw [hstep, hins, ih (acc ++ [(e.1, e.2)]) ?_ hnd.2]
      · simp
      · intro f hf
        rw [aFind_append, hdis f (by simp [hf])]
        have hne : e.1 ≠ f.1 := by
          intro hh
          exact hnd.1 (hh ▸ List.mem_map_of_mem Prod.fst hf)
        simp [aFind, hne]

theorem insFold_nil_nodup {κ α : Type} [DecidableEq κ] (l : List (κ × α))
    (hnd : (l.map Prod.fst).Nodup) : insFold [] l = l := by
  rw [insFold_fresh l [] (fun e _ => rfl) hnd]
  simp

theorem readEntriesLoop_roundtrip (es : List (FileID × FileMetadata)) (fuel : Nat)
    (rest : List Nat) :
    ∀ filesAcc trie,
    (∀ e ∈ es, entryValid e) →
    (∀ e ∈ es, idLookup (getLocalFilename e.2) trie = none) →
    ((es.map (fun e => getLocalFilename e.2)).Nodup) →
    ∃ trie', readEntriesLoop fuel es.length filesAcc trie
        ((es.map encodeEntry).flatten ++ rest) = some (insFold filesAcc es, trie', rest) ∧
      ∀ q, idLookup q trie' =
        (match es.find? (fun e => decide (getLocalFilename e.2 = q)) with
         | some e => some e.1
         | none => idLookup q trie) := by
  induction es with
  | nil =>
      intro filesAcc trie _ _ _
      exact ⟨trie, by simp [readEntriesLoop, insFold], fun q => by simp⟩
  | cons e tl ih =>
      intro filesAcc trie hval hvac hnd
      obtain ⟨h1, h2, h3, h4, h5, h6, h7, h8, h9, h10⟩ := hval e (by simp)
      simp only [List.map_cons, List.nodup_cons] at hnd
      have hpathne : getLocalFilename e.2 ≠ [] := by
        simp [getLocalFilename]
      obtain ⟨printed', trie1, hadd, hlook1⟩ :=
        addFile_vacant (getLocalFilename e.2) fuel e.1 e.1.1 trie hpathne
          (hvac e (by simp))
      obtain ⟨trie', hloop, hlook'⟩ := ih (aInsert filesAcc e.1 e.2) trie1
        (fun f hf => hval f (by simp [hf]))
        (fun f hf => by
          rw [hlook1 (getLocalFilename f.2)]
          rw [if_neg (fun hh => hnd.1 (by
            rw [← hh]
            exact List.mem_map_of_mem (fun g => getLocalFilename g.2) hf))]
          exact hvac f (by simp [hf]))
        hnd.2
      refine ⟨trie', ?_, ?_⟩
      · simp only [List.map_cons, List.flatten_cons, List.length_cons, encodeEntry,
          List.append_assoc]
        rw [readEntriesLoop, readU32_writeU32 _ _ h1]
        simp only [Option.bind_eq_bind, Option.some_bind]
        rw [readU32_writeU32 _ _ h2]
        simp only [Option.some_bind]
        rw [readU32_writeU32 _ _ h3]
        simp only [Option.some_bind]
        rw [readU32_writeU32 _ _ h5]
        simp only [Option.some_bind]
        rw [readComps_roundtrip _ _ (fun c hc => (h6 c hc).1)]
        simp only [Option.some_bind]
        rw [readStr_writeStr _ _ h7.1]
        simp only [Option.some_bind]
        rw [readU32_writeU32 _ _ h8]
        simp only [Option.some_bind]
        rw [readAttrs_roundtrip e.2.attributes _ [] h10]
        simp only [Option.some_bind]
        rw [insFold_nil_nodup _ h9]
        rw [hadd]
        simp only [Option.some_bind]
        exact hloop
      · intro q
        rw [hlook' q]
        cases htl : tl.find? (fun f => decide (getLocalFilename f.2 = q)) with
        | some f =>
            have hf : f ∈ tl := List.mem_of_find?_eq_some htl
            have hfq : getLocalFilename f.2 = q := by
              simpa using List.find?_some htl
            have hne : ¬ (getLocalFilename e.2 = q) := by
              intro hq
              refine hnd.1 ?_
              rw [hq, ← hfq]
              exact List.mem_map_of_mem (fun g => getLocalFilename g.2) hf
            rw [List.find?_cons_of_neg _ (by simpa using hne), htl]
        | none =>
            by_cases hq : getLocalFilename e.2 = q
            · rw [List.find?_cons_of_pos _ (by simpa using hq), hlook1 q,
                if_pos hq.symm]
            · rw [List.find?_cons_of_neg _ (by simpa using hq), htl, hlook1 q,
                if_neg (fun hh => hq hh.symm)]

theorem childLeaves_mem (cs : List (Str × LookupNode)) (c : Str) (child : LookupNode)
    (pf : List Str × FileID) (hc : (c, child) ∈ cs) (hpf : pf ∈ trieLeaves child) :
    (c :: pf.1, pf.2) ∈ childLeaves cs := by
  induction cs with
  | nil => simp at hc
  | cons hd tl ih =>
      obtain ⟨k0, ch0⟩ := hd
      rcases List.mem_cons.mp hc with heq | hmem
      · cases heq
        exact List.mem_append_left _
          (List.mem_map_of_mem (fun pf => (c :: pf.1, pf.2)) hpf)
      · exact List.mem_append_right _ (ih hmem)

theorem idLookup_mem_leaves (q : List Str) (t : LookupNode) (fid : FileID)
    (h : idLookup q t = some fid) : (q, fid) ∈ trieLeaves t := by
  induction q generalizing t with
  | nil =>
      obtain ⟨i, cs⟩ := t
      simp only [idLookup, LookupNode.nid] at h
      subst h
      simp [trieLeaves]
  | cons c q' ih =>
      obtain ⟨i, cs⟩ := t
      simp only [idLookup, LookupNode.childList] at h
      cases hf : aFind cs c with
      | none => simp [hf] at h
      | some child =>
          rw [hf] at h
          have hmem := childLeaves_mem cs c child (q', fid) (aFind_mem cs c child hf) (ih child h)
          simp only [trieLeaves]
          exact List.mem_append_right _ hmem

/-- Claim C5 — snapshot round-trip. For every valid replica state (§3
invariants), decoding the bytes produced by encoding yields a replica with the
same `last_timestamp`, `last_id`, `site_id`, the identical `files` map (hence
every filename timestamp, component list, printed filename and attribute
entry), and a trie mapping every path to the same `FileID`. -/
theorem C5_snapshot_roundtrip (fuel : Nat) (s : FileSet) (h : ValidFileSet s) :
    ∃ t, expandFrom fuel (compressTo s) = some t ∧
      t.files = s.files ∧ t.last_timestamp = s.last_timestamp ∧
      t.last_id = s.last_id ∧ t.site_id = s.site_id ∧
      ∀ p, idLookup p t.id_lookup = idLookup p s.id_lookup := by
  obtain ⟨hb1, hb2, hb3, hb4, hkeys, hent, htf, hft⟩ := h
  have hbase : s.files.Nodup := List.Nodup.of_map Prod.fst hkeys
  have hpaths : (s.files.map (fun e => getLocalFilename e.2)).Nodup := by
    refine List.Nodup.map_on ?_ hbase
    intro x hx y hy hxy
    have hx1 := htf x hx
    have hy1 := htf y hy
    rw [hxy, hy1] at hx1
    exact memEqOfNodupMap Prod.fst s.files x y hkeys hx hy (by
      injection hx1 with hh
      exact hh.symm)
  obtain ⟨trie', hloop, hlook⟩ := readEntriesLoop_roundtrip s.files fuel [] []
    LookupNode.newNode hent
    (fun e _ => idLookup_newNode (getLocalFilename e.2)) hpaths
  refine ⟨⟨insFold [] s.files, trie', s.last_timestamp, s.last_id, s.site_id⟩,
    ?_, insFold_nil_nodup s.files hkeys, rfl, rfl, rfl, ?_⟩
  · simp only [compressTo, expandFrom, List.append_assoc]
    rw [readU32_writeU32 _ _ hb1]
    simp only [Option.bind_eq_bind, Option.some_bind]
    rw [readU32_writeU32 _ _ hb2]
    simp only [Option.some_bind]
    rw [readU32_writeU32 _ _ hb3]
    simp only [Option.some_bind]
    rw [readU32_writeU32 _ _ hb4]
    simp only [Option.some_bind]
    rw [show ((s.files.map encodeEntry).flatten : List Nat) =
      (s.files.map encodeEntry).flatten ++ [] by simp]
    rw [hloop]
    simp only [Option.some_bind]
  · intro p
    rw [hlook p]
    cases hsl : idLookup p s.id_lookup with
    | some fid =>
        have hleaf := idLookup_mem_leaves p s.id_lookup fid hsl
        have hback := hft (p, fid) hleaf
        cases hmd : aFind s.files fid with
        | none => rw [hmd] at hback; simp at hback
        | some md =>
            rw [hmd] at hback
            simp only [Option.map_some, Option.some.injEq] at hback
            have hmem : (fid, md) ∈ s.files := aFind_mem s.files fid md hmd
            have hex : (s.files.find? (fun e => decide (getLocalFilename e.2 = p))).isSome := by
              rw [List.find?_isSome]
              exact ⟨(fid, md), hmem, by simpa using hback⟩
            obtain ⟨e', he'⟩ := Option.isSome_iff_exists.mp hex
            rw [he']
            have he'mem := List.mem_of_find?_eq_some he'
            have he'path : getLocalFilename e'.2 = p := by
              simpa using List.find?_some he'
            have := htf e' he'mem
            rw [he'path, hsl] at this
            injection this with hh
            rw [hh]
    | none =>
        cases hfind : s.files.find? (fun e => decide (getLocalFilename e.2 = p)) with
        | none => exact idLookup_newNode p
        | some e' =>
            have he'mem := List.mem_of_find?_eq_some hfind
            have he'path : getLocalFilename e'.2 = p := by
              simpa using List.find?_some hfind
            have := htf e' he'mem
            rw [he'path, hsl] at this
            exact absurd this (by simp)

/-- Witness for C5: the concrete valid replica `s6rep` (two files, one with
an attribute and a two-component path) round-trips. -/
theorem C5_snapshot_roundtrip_witness :
    ValidFileSet s6rep ∧
      ∃ t, expandFrom 1 (compressTo s6rep) = some t ∧
        t.files = s6rep.files ∧ t.last_timestamp = s6rep.last_timestamp ∧
        t.last_id = s6rep.last_id ∧ t.site_id = s6rep.site_id ∧
        ∀ p, idLookup p t.id_lookup = idLookup p s6rep.id_lookup :=
  ⟨by decide, C5_snapshot_roundtrip 1 s6rep (by decide)⟩

/-- Counterexample to claim C3 as stated: in the trie holding `(1,1)` at
`["a.txt"]` and `(1,2)` at `["a.txt","d"]`, `remove_file(["a.txt","d"])`
returns `(1,2)` but also prunes the ancestor node `"a.txt"` even though it
still holds FileID `(1,1)`: the stored path `["a.txt"]` no longer resolves. -/
theorem C3_remove_file_counterexample :
    idLookup [aTxt] trieC3 = some (1, 1) ∧
      (removeFile [aTxt, dirC] trieC3).1 = some (1, 2) ∧
      idLookup [aTxt] (removeFile [aTxt, dirC] trieC3).2 = none := by
  decide

/-- Claim C3, amended: for every path present in the trie, `remove_file`
clears the leaf's FileID and returns it, and on unwinding prunes exactly the
nodes left with no children — without consulting their own FileID; hence
every lookup of a path that is not a prefix of the removed one is unaffected
(a stored path that is a proper prefix of the removed path can be lost). -/
theorem C3_remove_file_amended (p : List Str) (t : LookupNode) (fid : FileID)
    (hw : wfNode t = true) (h : idLookup p t = some fid) :
    (removeFile p t).1 = some fid ∧
      idLookup p (removeFile p t).2 = none ∧
      ∀ q, pathPre q p = false → idLookup q (removeFile p t).2 = idLookup q t := by
  obtain ⟨h1, _, h3, h4⟩ := removeFile_found p t fid hw h
  exact ⟨h1, h3, h4⟩

/-- Witness for the amended C3 at a concrete trie and path. -/
theorem C3_remove_file_amended_witness :
    wfNode trieA = true ∧ idLookup [aTxt] trieA = some (1, 0) ∧
      ((removeFile [aTxt] trieA).1 = some (1, 0) ∧
        idLookup [aTxt] (removeFile [aTxt] trieA).2 = none ∧
        ∀ q, pathPre q [aTxt] = false →
          idLookup q (removeFile [aTxt] trieA).2 = idLookup q trieA) :=
  ⟨by decide, by decide, C3_remove_file_amended [aTxt] trieA (1, 0) (by decide) (by decide)⟩

/-- Claim C6 (code behaviour at the failing input, spec scenario S2): the
replica of site 1 holding `(1,0)` at `["a.txt"]` integrates
`Create{state:(5,2), id:(2,7), filename:["a.txt"]}` successfully;
`files[(2,7)]` gets printed name `"a.txt(site 2)"` and filename stamp
`(5, ["a.txt"])` as the claim states, and `["a.txt"]` still maps to `(1,0)` —
but the renamed trie leaf is installed at the doubled path
`["a.txt(site 2)", "a.txt(site 2)"]`, and the sibling path `["a.txt(site 2)"]`
resolves to nothing, contradicting the claimed trie mapping. -/
theorem C6_collision_rename_behavior :
    (integrateRemote 2 (.create createOpS2) s2rep).map Prod.fst =
        some (Except.ok ()) ∧
      (integrateRemote 2 (.create createOpS2) s2rep).map
          (fun r => idLookup [aTxt] r.2.id_lookup) = some (some (1, 0)) ∧
      (integrateRemote 2 (.create createOpS2) s2rep).map
          (fun r => idLookup [aTxt2] r.2.id_lookup) = some none ∧
      (integrateRemote 2 (.create createOpS2) s2rep).map
          (fun r => idLookup [aTxt2, aTxt2] r.2.id_lookup) = some (some (2, 7)) ∧
      (integrateRemote 2 (.create createOpS2) s2rep).map
          (fun r => aFind r.2.files (2, 7)) = some (some mdNewS2) := by
  decide

/-- Claim C4 (code behaviour at the failing input): on the replica of site 1
that tracks the remotely-created file `(2,5)` at `["a.txt"]` and its own file
`(1,5)` at `["d"]`, `process_remove(["a.txt"])` emits `Remove{(2,5)}` and
clears the trie entry, but removes `files[(1,5)]` — the key built from the
local `self.site_id` — leaving the metadata of `(2,5)` in place and deleting
the unrelated local file's metadata. -/
theorem C4_process_remove_behavior :
    (processRemove [aTxt] s4rep).map (fun r => r.1.id) = some (2, 5) ∧
      (processRemove [aTxt] s4rep).map (fun r => aFind r.2.files (2, 5)) =
        some (some mdRemote) ∧
      (processRemove [aTxt] s4rep).map (fun r => aFind r.2.files (1, 5)) =
        some none ∧
      (processRemove [aTxt] s4rep).map (fun r => idLookup [aTxt] r.2.id_lookup) =
        some none := by
  decide

/-- Claim C7 — for every `Remove`, `Update` or `UpdateMetadata` operation
whose `FileID` is not in the files map, `integrate_remote` returns
`IDNotFound` carrying that id's site and id components, and the in-memory
state is returned unchanged (files map and trie untouched). -/
theorem C7_integrate_unknown_id (fuel : Nat) (s : FileSet) (op : FileSetOperation)
    (fid : FileID)
    (hop : op = .remove ⟨fid⟩ ∨ op = .update fid ∨
      (∃ st tx, op = .updateMetadata ⟨st, fid, tx⟩))
    (h : aFind s.files fid = none) :
    integrateRemote fuel op s = some (Except.error (.IDNotFound fid.1 fid.2), s) := by
  rcases hop with rfl | rfl | ⟨st, tx, rfl⟩
  · simp [integrateRemote, integrateRemove, h]
  · simp [integrateRemote, integrateUpdate, h]
  · cases tx <;> simp [integrateRemote, integrateUpdateMetadata, h]

/-- Witness for C7: removing the untracked id `(9,9)` fails with
`IDNotFound 9 9` and leaves the replica untouched. -/
theorem C7_integrate_unknown_id_witness :
    aFind s1rep.files ((9 : Nat), (9 : Nat)) = none ∧
      integrateRemote 0 (.remove ⟨(9, 9)⟩) s1rep =
        some (Except.error (.IDNotFound 9 9), s1rep) :=
  ⟨by decide, C7_integrate_unknown_id 0 s1rep _ (9, 9) (Or.inl rfl) (by decide)⟩

/-- Claim C9 — a `Custom` operation on a tracked file whose key has no stored
attribute entry is inserted unconditionally, with the operation's timestamp,
and returns `Ok`: no LWW comparison happens on a vacant key (any timestamp,
including 0, is accepted). -/
theorem C9_custom_vacant_inserts (fuel : Nat) (s : FileSet) (o : UpdateMetadata)
    (key value : Str) (md : FileMetadata)
    (hdata : o.data = .customTx key value)
    (hmd : aFind s.files o.id = some md)
    (hkey : aFind md.attributes key = none) :
    integrateUpdateMetadata fuel o s =
      some (Except.ok (), setFile s o.id (setAttr md key o.state.time_stamp value)) := by
  obtain ⟨st, fid, data⟩ := o
  simp only at hdata
  subst hdata
  simp only [integrateUpdateMetadata, hmd, hkey, setFile, setAttr]

/-- Witness for C9: inserting key `"k"` with timestamp 0 on the vacant
attribute map of `(1,0)` succeeds. -/
theorem C9_custom_vacant_inserts_witness :
    (UpdateMetadata.mk ⟨0, 2⟩ (1, 0) (.customTx keyK valX)).data = .customTx keyK valX ∧
      aFind s1rep.files (1, 0) = some mdPlain ∧
      aFind mdPlain.attributes keyK = none ∧
      integrateUpdateMetadata 0 (UpdateMetadata.mk ⟨0, 2⟩ (1, 0) (.customTx keyK valX)) s1rep =
        some (Except.ok (), setFile s1rep (1, 0) (setAttr mdPlain keyK 0 valX)) :=
  ⟨rfl, by decide, by decide,
    C9_custom_vacant_inserts 0 s1rep _ keyK valX mdPlain rfl (by decide) (by decide)⟩

/-- Counterexample to claim C8 as stated: integrating the duplicate
`Create{(5,2), (2,7), ["a.txt"]}` on `s8rep` succeeds, but the additional
leaf is *not* at the collision-renamed sibling path `["a.txt(site 2)"]` —
that path resolves to nothing; the leaf sits at the doubled path. -/
theorem C8_duplicate_create_counterexample :
    (integrateRemote 2 (.create createOpDup) s8rep).map Prod.fst =
        some (Except.ok ()) ∧
      (integrateRemote 2 (.create createOpDup) s8rep).map
        (fun r => idLookup [aTxt2] r.2.id_lookup) = some none := by
  decide

/-- Claim C8, amended: integrating a `Create` whose `FileID` is already
tracked never errors — whenever `integrate_create` returns, the result is
`Ok` and the stored metadata under that id has been unconditionally replaced
(attributes emptied, filename stamped by the operation) — and the additional
trie leaf is installed at the collision-renamed name *nested twice* below the
original parent, leaving two distinct paths that carry the same `FileID`
(exhibited on the concrete duplicate-`Create` input). -/
theorem C8_duplicate_create_amended :
    (∀ (fuel : Nat) (s : FileSet) (o : CreateOperation)
        (r : Except FileSetError Unit × FileSet),
      integrateCreate fuel o s = some r →
        r.1 = Except.ok () ∧ ∃ printed, aFind r.2.files o.id =
          some ⟨(o.state.time_stamp, o.filename), printed, []⟩) ∧
      ((integrateRemote 2 (.create createOpDup) s8rep).map
          (fun r => (aFind r.2.files (2, 7), idLookup [aTxt] r.2.id_lookup,
            idLookup [aTxt2, aTxt2] r.2.id_lookup, idLookup [aTxt2] r.2.id_lookup)) =
        some (some mdNewS2, some (2, 7), some (2, 7), none)) := by
  constructor
  · intro fuel s o r hr
    cases haf : addFile fuel o.filename o.id o.id.1 s.id_lookup with
    | none => rw [integrateCreate, haf] at hr; simp at hr
    | some pr =>
        rw [integrateCreate, haf] at hr
        simp only [Option.bind_eq_bind, Option.some_bind, Option.some.injEq] at hr
        subst hr
        exact ⟨rfl, pr.1, aFind_aInsert_self s.files o.id _⟩
  · decide

/-- Witness for the amended C8 at the concrete duplicate-`Create` input. -/
theorem C8_duplicate_create_amended_witness :
    integrateCreate 2 createOpDup s8rep = some (Except.ok (), s8post) ∧
      ((Except.ok (), s8post) : Except FileSetError Unit × FileSet).1 = Except.ok () ∧
      ∃ printed, aFind s8post.files createOpDup.id =
        some ⟨(createOpDup.state.time_stamp, createOpDup.filename), printed, []⟩ :=
  ⟨rfl,
    (C8_duplicate_create_amended.1 2 s8rep createOpDup (Except.ok (), s8post) rfl).1,
    (C8_duplicate_create_amended.1 2 s8rep createOpDup (Except.ok (), s8post) rfl).2⟩

/-- Claim C10 — the `Custom` branch of `integrate_update_metadata` on a
tracked file changes at most the attribute entry under the operation's key:
the trie, `last_timestamp`, `last_id`, `site_id`, every other file's
metadata, the file's filename stamp and printed name, and every attribute
under any other key are unchanged, whether the operation is applied or
dropped. -/
theorem C10_custom_frame (fuel : Nat) (s : FileSet) (o : UpdateMetadata)
    (key value : Str) (md : FileMetadata)
    (hdata : o.data = .customTx key value)
    (hmd : aFind s.files o.id = some md) :
    ∃ res s', integrateUpdateMetadata fuel o s = some (res, s') ∧
      s'.id_lookup = s.id_lookup ∧ s'.last_timestamp = s.last_timestamp ∧
      s'.last_id = s.last_id ∧ s'.site_id = s.site_id ∧
      (∀ fid, fid ≠ o.id → aFind s'.files fid = aFind s.files fid) ∧
      ∃ md', aFind s'.files o.id = some md' ∧ md'.filename = md.filename ∧
        md'.printed_filename = md.printed_filename ∧
        ∀ k, k ≠ key → aFind md'.attributes k = aFind md.attributes k := by
  obtain ⟨st, fid, data⟩ := o
  simp only at hdata
  subst hdata
  simp only at hmd
  cases hat : aFind md.attributes key with
  | some val =>
      by_cases hdrop : val.1 > st.time_stamp ∨
          (val.1 = st.time_stamp ∧ s.site_id > st.site_id)
      · refine ⟨Except.ok (), s, ?_, rfl, rfl, rfl, rfl, fun _ _ => rfl,
          md, hmd, rfl, rfl, fun _ _ => rfl⟩
        simp only [integrateUpdateMetadata, hmd, hat, if_pos hdrop]
      · refine ⟨Except.ok (), setFile s fid (setAttr md key st.time_stamp value),
          ?_, rfl, rfl, rfl, rfl,
          fun fid' hne => aFind_aInsert_other s.files fid fid' _ hne,
          setAttr md key st.time_stamp value, aFind_aInsert_self s.files fid _,
          rfl, rfl, fun k hk => aFind_aInsert_other md.attributes key k _ hk⟩
        simp only [integrateUpdateMetadata, hmd, hat, if_neg hdrop, setAttr, setFile]
  | none =>
      refine ⟨Except.ok (), setFile s fid (setAttr md key st.time_stamp value),
        ?_, rfl, rfl, rfl, rfl,
        fun fid' hne => aFind_aInsert_other s.files fid fid' _ hne,
        setAttr md key st.time_stamp value, aFind_aInsert_self s.files fid _,
        rfl, rfl, fun k hk => aFind_aInsert_other md.attributes key k _ hk⟩
      simp only [integrateUpdateMetadata, hmd, hat, setAttr, setFile]

/-- Witness for C10 at a concrete replica and operation. -/
theorem C10_custom_frame_witness :
    (UpdateMetadata.mk ⟨10, 2⟩ (1, 0) (.customTx keyK valX)).data =
        .customTx keyK valX ∧
      aFind s1rep.files (1, 0) = some mdPlain ∧
      ∃ res s', integrateUpdateMetadata 0
          (UpdateMetadata.mk ⟨10, 2⟩ (1, 0) (.customTx keyK valX)) s1rep =
            some (res, s') ∧
        s'.id_lookup = s1rep.id_lookup ∧ s'.last_timestamp = s1rep.last_timestamp ∧
        s'.last_id = s1rep.last_id ∧ s'.site_id = s1rep.site_id ∧
        (∀ fid, fid ≠ (1, 0) → aFind s'.files fid = aFind s1rep.files fid) ∧
        ∃ md', aFind s'.files (1, 0) = some md' ∧ md'.filename = mdPlain.filename ∧
          md'.printed_filename = mdPlain.printed_filename ∧
          ∀ k, k ≠ keyK → aFind md'.attributes k = aFind mdPlain.attributes k :=
  ⟨rfl, by decide,
    C10_custom_frame 0 s1rep (UpdateMetadata.mk ⟨10, 2⟩ (1, 0) (.customTx keyK valX))
      keyK valX mdPlain rfl (by decide)⟩

/-- Counterexample to claim C2 as stated: on the replica `s2crep`
(`site_id = 5`), the stored attribute `"k" ↦ (10,"x")` was authored by site 2
(it was written by integrating `opA2`, whose stamp is `(10, 2)`). The
incoming `opB3` carries stamp `(10, 3)`; the claim's rule
(`stored.author 2 ≤ op.site 3`) says apply, but the source compares the
*local* `site_id` 5 with 3 and drops the operation: the state is returned
unchanged, with `"k"` still `(10, "x")`. -/
theorem C2_lww_tie_counterexample :
    lwwAcceptSpec 10 2 10 3 = true ∧
      opA2.state.site_id = 2 ∧ opB3.state.site_id = 3 ∧ s2crep.site_id = 5 ∧
      integrateRemote 0 (.updateMetadata opA2) s2crep = some (Except.ok (), s2cMid) ∧
      (aFind s2cMid.files (1, 0)).map (fun md => aFind md.attributes keyK) =
        some (some (10, valX)) ∧
      integrateRemote 0 (.updateMetadata opB3) s2cMid = some (Except.ok (), s2cMid) :=
  ⟨by decide, rfl, rfl, rfl, rfl, by decide, rfl⟩

/-- Claim C2, amended: the acceptance rule of `integrate_update_metadata`
compares the stored stamp's timestamp with the operation's and breaks ties
with the *local* replica's `site_id` (the stored value's author site is not
stored): for a tracked file, a `Custom` operation on an occupied key is
applied iff `stored.ts < op.ts ∨ (stored.ts = op.ts ∧ self.site_id ≤
op.site_id)`, and otherwise the operation returns `Ok` with the state
unchanged; the `Filename` variant follows the same rule against the stored
filename stamp. -/
theorem C2_lww_amended (fuel : Nat) (s : FileSet) (o : UpdateMetadata) :
    (∀ key value md stored, o.data = .customTx key value →
      aFind s.files o.id = some md → aFind md.attributes key = some stored →
        (¬ (stored.1 < o.state.time_stamp ∨ (stored.1 = o.state.time_stamp ∧
              s.site_id ≤ o.state.site_id)) →
          integrateUpdateMetadata fuel o s = some (Except.ok (), s)) ∧
        ((stored.1 < o.state.time_stamp ∨ (stored.1 = o.state.time_stamp ∧
              s.site_id ≤ o.state.site_id)) →
          integrateUpdateMetadata fuel o s =
            some (Except.ok (), setFile s o.id
              (setAttr md key o.state.time_stamp value)))) ∧
    (∀ comps md, o.data = .filenameTx comps → aFind s.files o.id = some md →
        (¬ (md.filename.1 < o.state.time_stamp ∨ (md.filename.1 = o.state.time_stamp ∧
              s.site_id ≤ o.state.site_id)) →
          integrateUpdateMetadata fuel o s = some (Except.ok (), s)) ∧
        (∀ r, (md.filename.1 < o.state.time_stamp ∨ (md.filename.1 = o.state.time_stamp ∧
              s.site_id ≤ o.state.site_id)) →
          integrateUpdateMetadata fuel o s = some r →
            r.1 = Except.ok () ∧ ∃ md', aFind r.2.files o.id = some md' ∧
              md'.filename = (o.state.time_stamp, comps))) := by
  obtain ⟨st, fid, data⟩ := o
  constructor
  · intro key value md stored hdata hmd hat
    simp only at hdata
    subst hdata
    simp only at hmd hat ⊢
    constructor
    · intro hrej
      have hdrop : stored.1 > st.time_stamp ∨
          (stored.1 = st.time_stamp ∧ s.site_id > st.site_id) := by omega
      simp only [integrateUpdateMetadata, hmd, hat, if_pos hdrop]
    · intro hacc
      have hdrop : ¬ (stored.1 > st.time_stamp ∨
          (stored.1 = st.time_stamp ∧ s.site_id > st.site_id)) := by omega
      simp only [integrateUpdateMetadata, hmd, hat, if_neg hdrop, setFile, setAttr]
  · intro comps md hdata hmd
    simp only at hdata
    subst hdata
    simp only at hmd ⊢
    constructor
    · intro hrej
      have hdrop : md.filename.1 > st.time_stamp ∨
          (md.filename.1 = st.time_stamp ∧ s.site_id > st.site_id) := by omega
      simp only [integrateUpdateMetadata, hmd, if_pos hdrop]
    · intro r hacc hr
      have hdrop : ¬ (md.filename.1 > st.time_stamp ∨
          (md.filename.1 = st.time_stamp ∧ s.site_id > st.site_id)) := by omega
      rw [integrateUpdateMetadata] at hr
      simp only [hmd, if_neg hdrop] at hr
      cases haf : addFile fuel comps fid st.site_id
          (removeFile (getLocalFilename md) s.id_lookup).2 with
      | none => rw [haf] at hr; simp at hr
      | some pr =>
          rw [haf] at hr
          simp only [Option.bind_eq_bind, Option.some_bind, Option.some.injEq] at hr
          subst hr
          exact ⟨rfl, _, aFind_aInsert_self s.files fid _, rfl⟩

/-- Witness for the amended C2: on `s2cMid` (stored `"k" ↦ (10,"x")`, local
site 5) the operation `opB3` with stamp `(10,3)` fails the amended acceptance
test and is dropped with the state unchanged. -/
theorem C2_lww_amended_witness :
    opB3.data = .customTx keyK valY ∧
      aFind s2cMid.files (1, 0) = some mdMidC2 ∧
      aFind mdMidC2.attributes keyK = some (10, valX) ∧
      ¬ ((10 : Nat) < 10 ∨ ((10 : Nat) = 10 ∧ s2cMid.site_id ≤ 3)) ∧
      integrateUpdateMetadata 0 opB3 s2cMid = some (Except.ok (), s2cMid) :=
  ⟨rfl, by decide, by decide, by decide,
    ((C2_lww_amended 0 s2cMid opB3).1 keyK valY mdMidC2 (10, valX)
      rfl (by decide) (by decide)).1 (by decide)⟩


theorem stepRM_custom (s : FileSet) (o : UpdateMetadata) (k v : Str)
    (hdata : o.data = .customTx k v) :
    (stepRM s o).id_lookup = s.id_lookup ∧
    (stepRM s o).site_id = s.site_id ∧
    (stepRM s o).last_timestamp = s.last_timestamp ∧
    (stepRM s o).last_id = s.last_id ∧
    ∀ fid,
      (aFind s.files fid = none → aFind (stepRM s o).files fid = none) ∧
      (∀ md, aFind s.files fid = some md →
        ∃ md', aFind (stepRM s o).files fid = some md' ∧
          md'.filename = md.filename ∧ md'.printed_filename = md.printed_filename ∧
          ∀ key, aFind md'.attributes key =
            (match projOp fid key o with
             | some x => lwwStep s.site_id (aFind md.attributes key) x
             | none => aFind md.attributes key)) := by
  obtain ⟨st, oid, data⟩ := o
  simp only at hdata
  subst hdata
  cases hmd0 : aFind s.files oid with
  | none =>
      have hstep : stepRM s ⟨st, oid, .customTx k v⟩ = s := by
        simp [stepRM, integrateRemote, integrateUpdateMetadata, hmd0]
      rw [hstep]
      refine ⟨rfl, rfl, rfl, rfl, fun fid => ⟨fun h => h, fun md hmd => ?_⟩⟩
      have hne : ¬ (oid = fid) := by
        intro h
        rw [h, hmd] at hmd0
        cases hmd0
      exact ⟨md, hmd, rfl, rfl, fun key => by simp [projOp, hne]⟩
  | some md0 =>
      have happly : ∀ (hstep : stepRM s ⟨st, oid, .customTx k v⟩ =
            setFile s oid (setAttr md0 k st.time_stamp v))
          (hval : ∀ key, aFind (aInsert md0.attributes k (st.time_stamp, v)) key =
            (match projOp oid key (UpdateMetadata.mk st oid (.customTx k v)) with
             | some x => lwwStep s.site_id (aFind md0.attributes key) x
             | none => aFind md0.attributes key)),
          (stepRM s ⟨st, oid, .customTx k v⟩).id_lookup = s.id_lookup ∧
          (stepRM s ⟨st, oid, .customTx k v⟩).site_id = s.site_id ∧
          (stepRM s ⟨st, oid, .customTx k v⟩).last_timestamp = s.last_timestamp ∧
          (stepRM s ⟨st, oid, .customTx k v⟩).last_id = s.last_id ∧
          ∀ fid,
            (aFind s.files fid = none →
              aFind (stepRM s ⟨st, oid, .customTx k v⟩).files fid = none) ∧
            (∀ md, aFind s.files fid = some md →
              ∃ md', aFind (stepRM s ⟨st, oid, .customTx k v⟩).files fid = some md' ∧
                md'.filename = md.filename ∧
                md'.printed_filename = md.printed_filename ∧
                ∀ key, aFind md'.attributes key =
                  (match projOp fid key (UpdateMetadata.mk st oid (.customTx k v)) with
                   | some x => lwwStep s.site_id (aFind md.attributes key) x
                   | none => aFind md.attributes key)) := by
        intro hstep hval
        rw [hstep]
        refine ⟨rfl, rfl, rfl, rfl, fun fid => ⟨?_, ?_⟩⟩
        · intro h
          have hne : ¬ (oid = fid) := by
            intro hh
            rw [hh, h] at hmd0
            cases hmd0
          rw [setFile]
          simp only
          rw [aFind_aInsert_other s.files oid fid _ (fun hh => hne hh.symm)]
          exact h
        · intro md hmd
          by_cases hfid : oid = fid
          · subst hfid
            have hmdeq : md = md0 := by
              rw [hmd] at hmd0
              injection hmd0
            rw [hmdeq]
            refine ⟨setAttr md0 k st.time_stamp v,
              aFind_aInsert_self s.files oid _, rfl, rfl, fun key => ?_⟩
            exact hval key
          · refine ⟨md, ?_, rfl, rfl, fun key => ?_⟩
            · rw [setFile]
              simp only
              rw [aFind_aInsert_other s.files oid fid _ (fun hh => hfid hh.symm)]
              exact hmd
            · simp [projOp, hfid]
      cases hat : aFind md0.attributes k with
      | none =>
          refine happly ?_ ?_
          · simp [stepRM, integrateRemote, integrateUpdateMetadata, hmd0, hat,
              setFile, setAttr]
          · intro key
            by_cases hkey : k = key
            · subst hkey
              rw [aFind_aInsert_self md0.attributes k, hat]
              simp [projOp, lwwStep]
            · rw [aFind_aInsert_other md0.attributes k key _ (fun hh => hkey hh.symm)]
              have hcond : ¬ (oid = oid ∧ k = key) := fun hh => hkey hh.2
              simp [projOp, hcond, hkey]
      | some val =>
          by_cases hdrop : val.1 > st.time_stamp ∨
              (val.1 = st.time_stamp ∧ s.site_id > st.site_id)
          · have hstep : stepRM s ⟨st, oid, .customTx k v⟩ = s := by
              simp [stepRM, integrateRemote, integrateUpdateMetadata, hmd0, hat, hdrop]
            rw [hstep]
            refine ⟨rfl, rfl, rfl, rfl, fun fid => ⟨fun h => h, fun md hmd => ?_⟩⟩
            by_cases hfid : oid = fid
            · subst hfid
              have hmdeq : md = md0 := by
                rw [hmd] at hmd0
                injection hmd0
              rw [hmdeq]
              refine ⟨md0, by rw [← hmdeq]; exact hmd, rfl, rfl, fun key => ?_⟩
              by_cases hkey : k = key
              · subst hkey
                rw [hat]
                simp [projOp, lwwStep, hdrop, hat]
              · have hcond : ¬ (oid = oid ∧ k = key) := fun hh => hkey hh.2
                simp [projOp, hcond, hkey]
            · exact ⟨md, hmd, rfl, rfl, fun key => by simp [projOp, hfid]⟩
          · refine happly ?_ ?_
            · simp [stepRM, integrateRemote, integrateUpdateMetadata, hmd0, hat,
                hdrop, setFile, setAttr]
            · intro key
              by_cases hkey : k = key
              · subst hkey
                rw [aFind_aInsert_self md0.attributes k, hat]
                simp [projOp, lwwStep, hdrop]
              · rw [aFind_aInsert_other md0.attributes k key _ (fun hh => hkey hh.symm)]
                have hcond : ¬ (oid = oid ∧ k = key) := fun hh => hkey hh.2
                simp [projOp, hcond, hkey]

theorem applyOps_custom (ops : List UpdateMetadata) :
    ∀ s : FileSet, (∀ o ∈ ops, isCustomOp o = true) →
    (applyOps s ops).id_lookup = s.id_lookup ∧
    (applyOps s ops).site_id = s.site_id ∧
    (applyOps s ops).last_timestamp = s.last_timestamp ∧
    (applyOps s ops).last_id = s.last_id ∧
    ∀ fid,
      (aFind s.files fid = none → aFind (applyOps s ops).files fid = none) ∧
      (∀ md, aFind s.files fid = some md →
        ∃ md', aFind (applyOps s ops).files fid = some md' ∧
          md'.filename = md.filename ∧ md'.printed_filename = md.printed_filename ∧
          ∀ key, aFind md'.attributes key =
            lwwFold s.site_id (aFind md.attributes key) (projOps ops fid key)) := by
  induction ops with
  | nil =>
      intro s _
      exact ⟨rfl, rfl, rfl, rfl, fun fid => ⟨fun h => h,
        fun md hmd => ⟨md, hmd, rfl, rfl, fun key => rfl⟩⟩⟩
  | cons o tl ih =>
      intro s hc
      have hcust : isCustomOp o = true := hc o (by simp)
      obtain ⟨k, v, hdata⟩ : ∃ k v, o.data = .customTx k v := by
        cases ho : o.data with
        | customTx k v => exact ⟨k, v, rfl⟩
        | filenameTx f => rw [isCustomOp, ho] at hcust; cases hcust
      obtain ⟨hS1, hS2, hS3, hS4, hSf⟩ := stepRM_custom s o k v hdata
      obtain ⟨hI1, hI2, hI3, hI4, hIf⟩ := ih (stepRM s o)
        (fun o' h' => hc o' (List.mem_cons_of_mem o h'))
      have happ : applyOps s (o :: tl) = applyOps (stepRM s o) tl := rfl
      rw [happ]
      refine ⟨hI1.trans hS1, hI2.trans hS2, hI3.trans hS3, hI4.trans hS4,
        fun fid => ⟨?_, ?_⟩⟩
      · intro h
        exact (hIf fid).1 ((hSf fid).1 h)
      · intro md hmd
        obtain ⟨md1, hml1, hfn1, hpr1, hkeys1⟩ := (hSf fid).2 md hmd
        obtain ⟨md2, hml2, hfn2, hpr2, hkeys2⟩ := (hIf fid).2 md1 hml1
        refine ⟨md2, hml2, hfn2.trans hfn1, hpr2.trans hpr1, fun key => ?_⟩
        rw [hkeys2 key, hS2]
        have hproj : projOps (o :: tl) fid key =
            (match projOp fid key o with
             | none => projOps tl fid key
             | some x => x :: projOps tl fid key) := by
          simp [projOps, List.filterMap_cons]
          cases projOp fid key o <;> simp
        rw [hproj]
        cases hpo : projOp fid key o with
        | none =>
            rw [hkeys1 key, hpo]
        | some x =>
            have hfold : lwwFold s.site_id (aFind md.attributes key)
                (x :: projOps tl fid key) =
                lwwFold s.site_id (lwwStep s.site_id (aFind md.attributes key) x)
                  (projOps tl fid key) := rfl
            rw [hfold, hkeys1 key, hpo]


theorem lwwFold_char (site : Nat) (l : List (Nat × Nat × Str)) :
    ∀ init : Option (Nat × Str), (candTs init l).Nodup →
    (candList init l = [] ∧ lwwFold site init l = none) ∨
    (∃ r, lwwFold site init l = some r ∧ r ∈ candList init l ∧
      ∀ c ∈ candList init l, c.1 ≤ r.1) := by
  induction l with
  | nil =>
      intro init _
      cases init with
      | none => exact Or.inl ⟨rfl, rfl⟩
      | some u =>
          exact Or.inr ⟨u, rfl, by simp [candList],
            fun c hc => by simp [candList] at hc; rw [hc]⟩
  | cons x l' ih =>
      intro init hnd
      have hcand_x : candList (some (x.1, x.2.2)) l' =
          (x.1, x.2.2) :: l'.map (fun o => (o.1, o.2.2)) := by
        simp [candList]
      have hcand_none : candList none (x :: l') =
          (x.1, x.2.2) :: l'.map (fun o => (o.1, o.2.2)) := by
        simp [candList]
      have hts_x : candTs (some (x.1, x.2.2)) l' =
          x.1 :: (l'.map (fun o => (o.1, o.2.2))).map Prod.fst := by
        simp [candTs, candList]
      have hts_none : candTs none (x :: l') =
          x.1 :: (l'.map (fun o => (o.1, o.2.2))).map Prod.fst := by
        simp [candTs, candList]
      cases init with
      | none =>
          have hnd' : (candTs (some (x.1, x.2.2)) l').Nodup := by
            rw [hts_x]
            rw [hts_none] at hnd
            exact hnd
          rcases ih (some (x.1, x.2.2)) hnd' with ⟨hemp, _⟩ | ⟨r, hf, hmem, hmax⟩
          · rw [hcand_x] at hemp
            cases hemp
          · refine Or.inr ⟨r, hf, ?_, ?_⟩
            · rw [hcand_none]
              rw [hcand_x] at hmem
              exact hmem
            · intro c hc
              refine hmax c ?_
              rw [hcand_x]
              rw [hcand_none] at hc
              exact hc
      | some u =>
          have hcand_ux : candList (some u) (x :: l') =
              u :: (x.1, x.2.2) :: l'.map (fun o => (o.1, o.2.2)) := by
            simp [candList]
          have hcand_u : candList (some u) l' =
              u :: l'.map (fun o => (o.1, o.2.2)) := by
            simp [candList]
          have hts_ux : candTs (some u) (x :: l') =
              u.1 :: x.1 :: (l'.map (fun o => (o.1, o.2.2))).map Prod.fst := by
            simp [candTs, candList]
          have hts_u : candTs (some u) l' =
              u.1 :: (l'.map (fun o => (o.1, o.2.2))).map Prod.fst := by
            simp [candTs, candList]
          rw [hts_ux] at hnd
          obtain ⟨hu_notin, hnd_tail⟩ := List.nodup_cons.mp hnd
          obtain ⟨hx_notin, hnd_ts⟩ := List.nodup_cons.mp hnd_tail
          have hu_x : u.1 ≠ x.1 := fun hh => hu_notin (by rw [hh]; simp)
          have hu_l : u.1 ∉ (l'.map (fun o => (o.1, o.2.2))).map Prod.fst :=
            fun hh => hu_notin (List.mem_cons_of_mem _ hh)
          by_cases hdrop : u.1 > x.1 ∨ (u.1 = x.1 ∧ site > x.2.1)
          · have hgt : u.1 > x.1 := by omega
            have hnd' : (candTs (some u) l').Nodup := by
              rw [hts_u]
              exact List.nodup_cons.mpr ⟨hu_l, hnd_ts⟩
            rcases ih (some u) hnd' with ⟨hemp, _⟩ | ⟨r, hf, hmem, hmax⟩
            · rw [hcand_u] at hemp
              cases hemp
            · refine Or.inr ⟨r, ?_, ?_, ?_⟩
              · have hstep : lwwFold site (some u) (x :: l') =
                    lwwFold site (lwwStep site (some u) x) l' := rfl
                rw [hstep]
                simp only [lwwStep, if_pos hdrop]
                exact hf
              · rw [hcand_ux]
                rw [hcand_u] at hmem
                rcases List.mem_cons.mp hmem with rfl | hmm
                · exact List.mem_cons_self _ _
                · exact List.mem_cons_of_mem _ (List.mem_cons_of_mem _ hmm)
              · intro c hc
                rw [hcand_ux] at hc
                rcases List.mem_cons.mp hc with rfl | hcc
                · exact hmax c (by rw [hcand_u]; exact List.mem_cons_self _ _)
                · rcases List.mem_cons.mp hcc with rfl | hcc2
                  · have hur : u.1 ≤ r.1 :=
                      hmax u (by rw [hcand_u]; exact List.mem_cons_self _ _)
                    simp only
                    omega
                  · exact hmax c (by rw [hcand_u]; exact List.mem_cons_of_mem _ hcc2)
          · have hlt : u.1 < x.1 := by omega
            have hnd' : (candTs (some (x.1, x.2.2)) l').Nodup := by
              rw [hts_x]
              exact List.nodup_cons.mpr ⟨hx_notin, hnd_ts⟩
            rcases ih (some (x.1, x.2.2)) hnd' with ⟨hemp, _⟩ | ⟨r, hf, hmem, hmax⟩
            · rw [hcand_x] at hemp
              cases hemp
            · refine Or.inr ⟨r, ?_, ?_, ?_⟩
              · have hstep : lwwFold site (some u) (x :: l') =
                    lwwFold site (lwwStep site (some u) x) l' := rfl
                rw [hstep]
                simp only [lwwStep, if_neg hdrop]
                exact hf
              · rw [hcand_ux]
                rw [hcand_x] at hmem
                exact List.mem_cons_of_mem _ hmem
              · intro c hc
                rw [hcand_ux] at hc
                rcases List.mem_cons.mp hc with rfl | hcc
                · have hxr : x.1 ≤ r.1 :=
                    hmax (x.1, x.2.2) (by rw [hcand_x]; exact List.mem_cons_self _ _)
                  omega
                · exact hmax c (by rw [hcand_x]; exact hcc)

theorem lwwFold_perm (site : Nat) (init : Option (Nat × Str))
    (l1 l2 : List (Nat × Nat × Str)) (hperm : l1.Perm l2)
    (hnd : (candTs init l1).Nodup) :
    lwwFold site init l1 = lwwFold site init l2 := by
  have hcperm : (candList init l1).Perm (candList init l2) :=
    List.Perm.append_left init.toList (hperm.map _)
  have htperm : (candTs init l1).Perm (candTs init l2) := hcperm.map Prod.fst
  have hnd2 : (candTs init l2).Nodup := htperm.nodup_iff.mp hnd
  rcases lwwFold_char site l1 init hnd with ⟨he1, hn1⟩ | ⟨r1, hf1, hm1, hx1⟩
  · rcases lwwFold_char site l2 init hnd2 with ⟨_, hn2⟩ | ⟨r2, hf2, hm2, _⟩
    · rw [hn1, hn2]
    · rw [he1] at hcperm
      rw [hcperm.symm.eq_nil] at hm2
      cases hm2
  · rcases lwwFold_char site l2 init hnd2 with ⟨he2, _⟩ | ⟨r2, hf2, hm2, hx2⟩
    · rw [he2] at hcperm
      rw [hcperm.eq_nil] at hm1
      cases hm1
    · have hm2' : r2 ∈ candList init l1 := hcperm.mem_iff.mpr hm2
      have hm1' : r1 ∈ candList init l2 := hcperm.mem_iff.mp hm1
      have hts : r1.1 = r2.1 := Nat.le_antisymm (hx2 r1 hm1') (hx1 r2 hm2')
      have hreq : r1 = r2 :=
        memEqOfNodupMap Prod.fst (candList init l1) r1 r2 hnd hm1 hm2' hts
      rw [hf1, hf2, hreq]

/-- Counterexample to claim C1 as stated: replicas starting from the
identical state `s1rep` (site 3) that integrate the same two `Custom`
operations — equal timestamps 10, author sites 1 and 2, same key — in the
two possible orders end with different `files` maps: the first-integrated
operation wins on both replicas, because the tie is broken against the local
`site_id` 3, which is greater than both authors' sites. -/
theorem C1_convergence_counterexample :
    List.Perm [opX, opY] [opY, opX] ∧
      (aFind (applyOps s1rep [opX, opY]).files (1, 0)).map
          (fun md => aFind md.attributes keyK) = some (some (10, valX)) ∧
      (aFind (applyOps s1rep [opY, opX]).files (1, 0)).map
          (fun md => aFind md.attributes keyK) = some (some (10, valY)) ∧
      (applyOps s1rep [opX, opY]).files ≠ (applyOps s1rep [opY, opX]).files :=
  ⟨List.Perm.swap opY opX [], by decide, by decide, by decide⟩

/-- Claim C1, amended: convergence holds for sets of `UpdateMetadata Custom`
operations whose timestamps never tie — when, for every register `(file,
key)` targeted by the set, the operations' timestamps and the initially
stored timestamp are pairwise distinct, two replicas starting from identical
state that integrate the set via `integrate_remote` in any two orders end
with pointwise-equal `files` maps (same filename stamps, printed names, and
attribute maps) and tries mapping identical paths to identical `FileID`s
(`Custom` operations never touch the trie). -/
theorem C1_convergence_amended (s : FileSet) (ops1 ops2 : List UpdateMetadata)
    (hperm : ops1.Perm ops2)
    (hcust : ∀ o ∈ ops1, isCustomOp o = true)
    (hdist : ∀ t ∈ opTargets ops1,
      (candTs (initAttr s t.1 t.2) (projOps ops1 t.1 t.2)).Nodup) :
    (∀ p, idLookup p (applyOps s ops1).id_lookup =
      idLookup p (applyOps s ops2).id_lookup) ∧
    ∀ fid, optMdSame (aFind (applyOps s ops1).files fid)
      (aFind (applyOps s ops2).files fid) := by
  have hcust2 : ∀ o ∈ ops2, isCustomOp o = true :=
    fun o ho => hcust o (hperm.mem_iff.mpr ho)
  obtain ⟨hA1, hA2, _, _, hAf⟩ := applyOps_custom ops1 s hcust
  obtain ⟨hB1, hB2, _, _, hBf⟩ := applyOps_custom ops2 s hcust2
  refine ⟨fun p => by rw [hA1, hB1], fun fid => ?_⟩
  cases hmd : aFind s.files fid with
  | none =>
      rw [(hAf fid).1 hmd, (hBf fid).1 hmd]
      exact trivial
  | some md =>
      obtain ⟨md1, hl1, hfn1, hpr1, hk1⟩ := (hAf fid).2 md hmd
      obtain ⟨md2, hl2, hfn2, hpr2, hk2⟩ := (hBf fid).2 md hmd
      rw [hl1, hl2]
      refine ⟨hfn1.trans hfn2.symm, hpr1.trans hpr2.symm, fun key => ?_⟩
      rw [hk1 key, hk2 key]
      have hpp : (projOps ops1 fid key).Perm (projOps ops2 fid key) :=
        hperm.filterMap _
      by_cases hemp : projOps ops1 fid key = []
      · have hemp2 : projOps ops2 fid key = [] := by
          rw [hemp] at hpp
          exact hpp.symm.eq_nil
        rw [hemp, hemp2]
      · obtain ⟨x, hx⟩ := List.exists_mem_of_ne_nil _ hemp
        obtain ⟨o, ho, hpo⟩ := List.mem_filterMap.mp hx
        cases hod : o.data with
        | filenameTx f =>
            simp [projOp, hod] at hpo
        | customTx kk vv =>
            have hcond : o.id = fid ∧ kk = key := by
              by_contra hcc
              simp [projOp, hod, hcc] at hpo
            have htgt : (fid, key) ∈ opTargets ops1 := by
              refine List.mem_filterMap.mpr ⟨o, ho, ?_⟩
              simp [opKey, hod, hcond.1, hcond.2]
            have hnd := hdist (fid, key) htgt
            have hinit : initAttr s fid key = aFind md.attributes key := by
              rw [initAttr, hmd]
            rw [hinit] at hnd
            exact lwwFold_perm s.site_id _ _ _ hpp hnd

/-- Witness for the amended C1: the two orders of the distinct-timestamp
`Custom` operations `opX` (ts 10) and `opZ` (ts 11) on `s1rep` converge. -/
theorem C1_convergence_amended_witness :
    (∀ o ∈ [opX, opZ], isCustomOp o = true) ∧
      (∀ t ∈ opTargets [opX, opZ],
        (candTs (initAttr s1rep t.1 t.2) (projOps [opX, opZ] t.1 t.2)).Nodup) ∧
      ((∀ p, idLookup p (applyOps s1rep [opX, opZ]).id_lookup =
          idLookup p (applyOps s1rep [opZ, opX]).id_lookup) ∧
        ∀ fid, optMdSame (aFind (applyOps s1rep [opX, opZ]).files fid)
          (aFind (applyOps s1rep [opZ, opX]).files fid)) :=
  ⟨by decide, by decide,
    C1_convergence_amended s1rep [opX, opZ] [opZ, opX]
      (List.Perm.swap opZ opX []) (by decide) (by decide)⟩
